import Mathlib

/-!
# LoPass: the second-order low-pass kernel

A shallow embedding of `LoPassKernel` from `LoPass/Source/LoPassUnit.cpp` and
`LoPass/Source/LoPassUnit.hpp`.

## Numeric model

The C++ values of type `double` and `float` are elements of a field `K`
(linearly ordered where the code compares them).  Arithmetic is exact: the
rounding of each IEEE operation, the narrowing of `double` to `float`
(`float srate`, `float input`, `float output`), infinities and NaN are not
modelled.  The structural results below hold for every such `K` and every
interpretation of the `math.h` functions; the analytic results are stated for
`K = ℝ` with the real sine, cosine, square root and power.

## State

Every method of the kernel is a function from the kernel's fields (and what the
method reads from the host) to its result and the kernel's fields afterwards.

## Buffers

The source buffer of `Process` is the list of its `inFramesToProcess` samples,
and the destination buffer the list of the samples written, in the order
written.  The loop counter `int n = inFramesToProcess` takes the frame count
itself (frame counts stay below `2^31`), so the loop runs once per source
sample.
-/

namespace LoPass

/-- The functions and the constant of `math.h` that the kernel calls. -/
structure Libm (K : Type) where
  /-- The function `sin`. -/
  sin : K → K
  /-- The function `cos`. -/
  cos : K → K
  /-- The function `sqrt`. -/
  sqrt : K → K
  /-- The function `pow`. -/
  pow : K → K → K
  /-- The constant `M_PI`. -/
  M_PI : K

/-- The `math.h` functions over the real numbers. -/
noncomputable def realLibm : Libm ℝ where
  sin := Real.sin
  cos := Real.cos
  sqrt := Real.sqrt
  pow := fun x y => x ^ y
  M_PI := Real.pi

/-- What the kernel reads from the audio unit that owns it: `GetSampleRate()`,
`GetParameter(kParameter_CutoffFrequency)` and `GetParameter(kParameter_Resonance)`. -/
structure AudioUnit (K : Type) where
  /-- The value of `GetSampleRate()`. -/
  sampleRate : K
  /-- The value of `GetParameter(kParameter_CutoffFrequency)`. -/
  cutoffFrequency : K
  /-- The value of `GetParameter(kParameter_Resonance)`. -/
  resonance : K

/-- The private data members of `class LoPassKernel` (LoPassUnit.hpp). -/
structure LoPassKernel (K : Type) where
  mA0 : K
  mA1 : K
  mA2 : K
  mB1 : K
  mB2 : K
  mX1 : K
  mX2 : K
  mY1 : K
  mY2 : K
  mLastCutoff : K
  mLastResonance : K
deriving DecidableEq

section Field

variable {K : Type} [Field K]

/-- The constant `kMinimumValue_LoPass_Frequency = 12.0`. -/
def kMinimumValue_LoPass_Frequency : K := 12

/-- The constant `kMinimumValue_LoPass_Resonance = -20.0`. -/
def kMinimumValue_LoPass_Resonance : K := -20

/-- The constant `kMaximumValue_LoPass_Resonance = 20.0`. -/
def kMaximumValue_LoPass_Resonance : K := 20

/-- The method `LoPassKernel::Reset()`: the four registers are set to `0.0` and
the two cached parameters to `-1.0`; the coefficients are not assigned. -/
def Reset (self : LoPassKernel K) : LoPassKernel K :=
  { self with
    mX1 := 0
    mX2 := 0
    mY1 := 0
    mY2 := 0
    mLastCutoff := -1
    mLastResonance := -1 }

/-- The method `LoPassKernel::CalculateLopassParams(inFreq, inResonance)`. -/
def CalculateLopassParams (L : Libm K) (self : LoPassKernel K) (inFreq inResonance : K) :
    LoPassKernel K :=
  let r := L.pow 10 (0.05 * -inResonance)
  let k := 0.5 * r * L.sin (L.M_PI * inFreq)
  let c1 := 0.5 * (1 - k) / (1 + k)
  let c2 := (0.5 + c1) * L.cos (L.M_PI * inFreq)
  let c3 := (0.5 + c1 - c2) * 0.25
  { self with
    mA0 := 2 * c3
    mA1 := 2 * 2 * c3
    mA2 := 2 * c3
    mB1 := 2 * -c2
    mB2 := 2 * c1 }

/-- The method `LoPassKernel::GetFrequencyResponse(inFreq)`: the returned
`response`, paired with the kernel's fields after the call (the method assigns
to none of them). -/
def GetFrequencyResponse (L : Libm K) (au : AudioUnit K) (self : LoPassKernel K) (inFreq : K) :
    K × LoPassKernel K :=
  let srate := au.sampleRate
  let scaledFrequency := 2 * inFreq / srate
  let zr := L.cos (L.M_PI * scaledFrequency)
  let zi := L.sin (L.M_PI * scaledFrequency)
  let num_r := self.mA0 * (zr * zr - zi * zi) + self.mA1 * zr + self.mA2
  let num_i := 2 * self.mA0 * zr * zi + self.mA1 * zi
  let num_mag := L.sqrt (num_r * num_r + num_i * num_i)
  let den_r := zr * zr - zi * zi + self.mB1 * zr + self.mB2
  let den_i := 2 * zr * zi + self.mB1 * zi
  let den_mag := L.sqrt (den_r * den_r + den_i * den_i)
  let response := num_mag / den_mag
  (response, self)

/-- The local `num_mag` of `GetFrequencyResponse(inFreq)`, the dividend of its
division. -/
def numMagnitude (L : Libm K) (au : AudioUnit K) (self : LoPassKernel K) (inFreq : K) : K :=
  let srate := au.sampleRate
  let scaledFrequency := 2 * inFreq / srate
  let zr := L.cos (L.M_PI * scaledFrequency)
  let zi := L.sin (L.M_PI * scaledFrequency)
  let num_r := self.mA0 * (zr * zr - zi * zi) + self.mA1 * zr + self.mA2
  let num_i := 2 * self.mA0 * zr * zi + self.mA1 * zi
  L.sqrt (num_r * num_r + num_i * num_i)

/-- The local `den_mag` of `GetFrequencyResponse(inFreq)`, the divisor of its
division. -/
def denMagnitude (L : Libm K) (au : AudioUnit K) (self : LoPassKernel K) (inFreq : K) : K :=
  let srate := au.sampleRate
  let scaledFrequency := 2 * inFreq / srate
  let zr := L.cos (L.M_PI * scaledFrequency)
  let zi := L.sin (L.M_PI * scaledFrequency)
  let den_r := zr * zr - zi * zi + self.mB1 * zr + self.mB2
  let den_i := 2 * zr * zi + self.mB1 * zi
  L.sqrt (den_r * den_r + den_i * den_i)

/-- The body of the `while (n--)` loop of `Process`, once: from the sample read
at `*sourceP++`, the sample written at `*destP++` and the kernel afterwards. -/
def loopBody (self : LoPassKernel K) (input : K) : K × LoPassKernel K :=
  let output := self.mA0 * input + self.mA1 * self.mX1 + self.mA2 * self.mX2
    - self.mB1 * self.mY1 - self.mB2 * self.mY2
  (output, { self with
    mX2 := self.mX1
    mX1 := input
    mY2 := self.mY1
    mY1 := output })

/-- The `while (n--)` loop of `Process`: `sourceP` holds the samples not yet
read (as many as frames remain), `dest` the samples written so far at
`*destP++`, in the order written. -/
def sampleLoop : List K → LoPassKernel K → List K → List K × LoPassKernel K
  | [], self, dest => (dest, self)
  | input :: sourceP, self, dest =>
    sampleLoop sourceP (loopBody self input).2 (dest ++ [(loopBody self input).1])

end Field

section Ordered

variable {K : Type} [LinearOrderedField K]

/-- The bounds checking and normalisation at the head of `Process`: the values
of the locals `cutoff` and `resonance` when they reach the comparison with
`mLastCutoff` and `mLastResonance`. -/
def boundedParameters (au : AudioUnit K) : K × K :=
  let cutoff := au.cutoffFrequency
  let resonance := au.resonance
  let cutoff := if cutoff < kMinimumValue_LoPass_Frequency then kMinimumValue_LoPass_Frequency
    else cutoff
  let resonance := if resonance < kMinimumValue_LoPass_Resonance
    then kMinimumValue_LoPass_Resonance else resonance
  let resonance := if resonance > kMaximumValue_LoPass_Resonance
    then kMaximumValue_LoPass_Resonance else resonance
  let srate := au.sampleRate
  let cutoff := 2 * cutoff / srate
  let cutoff := if cutoff > 0.99 then 0.99 else cutoff
  (cutoff, resonance)

/-- The coefficient update of `Process`: `CalculateLopassParams` is called, and
the cached pair assigned, only under
`cutoff != mLastCutoff || resonance != mLastResonance`. -/
def updateCoefficients (L : Libm K) (self : LoPassKernel K) (cutoff resonance : K) :
    LoPassKernel K :=
  if cutoff ≠ self.mLastCutoff ∨ resonance ≠ self.mLastResonance then
    { CalculateLopassParams L self cutoff resonance with
      mLastCutoff := cutoff
      mLastResonance := resonance }
  else self

/-- The method `LoPassKernel::Process`: `inSourceP` holds the
`inFramesToProcess` source samples; the result is the samples written to
`inDestP` and the kernel afterwards.  The arguments `inNumChannels` and
`ioSilence` are not used by the method. -/
def Process (L : Libm K) (au : AudioUnit K) (self : LoPassKernel K) (inSourceP : List K) :
    List K × LoPassKernel K :=
  let p := boundedParameters au
  sampleLoop inSourceP (updateCoefficients L self p.1 p.2) []

end Ordered

/-! ## Definitions in the words of the specification, and views of the state -/

section Views

variable {K : Type} [Field K]

/-- The conversion from decibels to a linear factor in the words of the
specification (section 3): `10^(0.05·−resonanceDb)`. -/
def resonanceLinear (L : Libm K) (resonanceDb : K) : K :=
  L.pow 10 (0.05 * -resonanceDb)

/-- The intermediate `k` of the specification's algorithm (section 4.1). -/
def specK (L : Libm K) (f r : K) : K :=
  0.5 * r * L.sin (L.M_PI * f)

/-- The intermediate `c1` of the specification's algorithm (section 4.1). -/
def specC1 (L : Libm K) (f r : K) : K :=
  0.5 * (1 - specK L f r) / (1 + specK L f r)

/-- The intermediate `c2` of the specification's algorithm (section 4.1). -/
def specC2 (L : Libm K) (f r : K) : K :=
  (0.5 + specC1 L f r) * L.cos (L.M_PI * f)

/-- The intermediate `c3` of the specification's algorithm (section 4.1). -/
def specC3 (L : Libm K) (f r : K) : K :=
  (0.5 + specC1 L f r - specC2 L f r) * 0.25

/-- The result `(a0, a1, a2, b1, b2)` of the specification's algorithm
(section 4.1), for a normalised cutoff `f` and a linear resonance `r`. -/
def specCoefficients (L : Libm K) (f r : K) : K × K × K × K × K :=
  (2 * specC3 L f r, 2 * 2 * specC3 L f r, 2 * specC3 L f r, 2 * -specC2 L f r,
    2 * specC1 L f r)

/-- The five coefficients of a kernel, as `(a0, a1, a2, b1, b2)`. -/
def coefficients (self : LoPassKernel K) : K × K × K × K × K :=
  (self.mA0, self.mA1, self.mA2, self.mB1, self.mB2)

/-- The four registers of a kernel, as `(x1, x2, y1, y2)`. -/
def registers (self : LoPassKernel K) : K × K × K × K :=
  (self.mX1, self.mX2, self.mY1, self.mY2)

/-- The cached pair of a kernel, as `(mLastCutoff, mLastResonance)`. -/
def lastApplied (self : LoPassKernel K) : K × K :=
  (self.mLastCutoff, self.mLastResonance)

/-- The sample the loop writes at index `n` when every source sample is zero,
from the kernel `self`. -/
def zeroInputResponse (self : LoPassKernel K) : ℕ → K
  | 0 => (loopBody self 0).1
  | n + 1 => zeroInputResponse (loopBody self 0).2 n

/-- The unit impulse of the specification (section 8): `1.0` followed by `m`
zeros. -/
def unitImpulse (m : ℕ) : List K :=
  1 :: List.replicate m 0

/-- The kernel as it stands before sample `n` of the source `x`: the kernel the
loop leaves after the first `n` samples. -/
def kernelBefore (self : LoPassKernel K) (x : List K) (n : ℕ) : LoPassKernel K :=
  (sampleLoop (x.take n) self []).2

/-- The divisor `1.0 + k` of the division in
`CalculateLopassParams(inFreq, inResonance)`. -/
def calcDivisor (L : Libm K) (inFreq inResonance : K) : K :=
  let r := L.pow 10 (0.05 * -inResonance)
  let k := 0.5 * r * L.sin (L.M_PI * inFreq)
  1 + k

end Views

section OrderedViews

variable {K : Type} [LinearOrderedField K]

/-- The clamp of the specification (section 4.3): `x` brought into `[lo, hi]`. -/
def clamp (lo hi x : K) : K :=
  max lo (min hi x)

/-- The normalised cutoff in the words of the specification (sections 3 and
4.3): the cutoff clamped to `[12, sampleRate/2]`, then `2·cutoff/sampleRate`,
clamped to a maximum of `0.99`. -/
def specNormalizedCutoff (sampleRate cutoffHz : K) : K :=
  min 0.99 (2 * clamp 12 (sampleRate / 2) cutoffHz / sampleRate)

/-- The resonance in the words of the specification (section 4.3): clamped to
`[−20, +20]`. -/
def specClampedResonance (resonanceDb : K) : K :=
  clamp (-20) 20 resonanceDb

/-- A call of the host on a kernel: `Reset()`, or `Process` on a block of
source samples with the host values read during the call. -/
inductive Call (K : Type) where
  | reset : Call K
  | process (au : AudioUnit K) (inSourceP : List K) : Call K

/-- The sample rate read by a call is above zero (a `Reset` reads none). -/
def Call.sampleRatePositive : Call K → Prop
  | Call.reset => True
  | Call.process au _ => 0 < au.sampleRate

/-- A sequence of calls on a kernel, in order: the blocks written by the
`Process` calls and the kernel after the last call. -/
def runCalls (L : Libm K) : LoPassKernel K → List (Call K) → List (List K) × LoPassKernel K
  | self, [] => ([], self)
  | self, Call.reset :: calls => runCalls L (Reset self) calls
  | self, Call.process au inSourceP :: calls =>
    ((Process L au self inSourceP).1 :: (runCalls L (Process L au self inSourceP).2 calls).1,
      (runCalls L (Process L au self inSourceP).2 calls).2)

/-- The reference kernel of the specification's refinement: `Process` without
the change-detection gate, the coefficients recomputed on every block. -/
def ProcessRecomputing (L : Libm K) (au : AudioUnit K) (self : LoPassKernel K)
    (inSourceP : List K) : List K × LoPassKernel K :=
  let p := boundedParameters au
  sampleLoop inSourceP
    { CalculateLopassParams L self p.1 p.2 with
      mLastCutoff := p.1
      mLastResonance := p.2 } []

/-- A sequence of calls on the reference kernel, which recomputes the
coefficients on every block. -/
def runCallsRecomputing (L : Libm K) :
    LoPassKernel K → List (Call K) → List (List K) × LoPassKernel K
  | self, [] => ([], self)
  | self, Call.reset :: calls => runCallsRecomputing L (Reset self) calls
  | self, Call.process au inSourceP :: calls =>
    ((ProcessRecomputing L au self inSourceP).1
        :: (runCallsRecomputing L (ProcessRecomputing L au self inSourceP).2 calls).1,
      (runCallsRecomputing L (ProcessRecomputing L au self inSourceP).2 calls).2)

/-- The cache of a kernel is sound: the cached pair is the sentinel pair of
`Reset`, or the coefficients are those `CalculateLopassParams` gives at the
cached pair. -/
def CacheSound (L : Libm K) (self : LoPassKernel K) : Prop :=
  lastApplied self = (-1, -1)
    ∨ coefficients self
      = coefficients (CalculateLopassParams L self self.mLastCutoff self.mLastResonance)

end OrderedViews

section ComplexViews

/-- The point `z = e^{jθ}` of the unit circle at the angle
`θ = π·(2·freq/sampleRate)` of the specification (section 4.4). -/
noncomputable def unitCirclePoint (sampleRate freq : ℝ) : ℂ :=
  Complex.exp (((Real.pi * (2 * freq / sampleRate) : ℝ) : ℂ) * Complex.I)

/-- The transfer function `H(z) = (a0 + a1 z⁻¹ + a2 z⁻²) / (1 + b1 z⁻¹ + b2 z⁻²)`
of the coefficients of a kernel. -/
noncomputable def transferFunction (self : LoPassKernel ℝ) (z : ℂ) : ℂ :=
  ((self.mA0 : ℂ) + (self.mA1 : ℂ) * z⁻¹ + (self.mA2 : ℂ) * (z⁻¹) ^ 2)
    / (1 + (self.mB1 : ℂ) * z⁻¹ + (self.mB2 : ℂ) * (z⁻¹) ^ 2)

/-- The kernel `self` on a complex signal: its coefficients (and cached pair)
read as complex numbers, with the given registers. -/
def complexKernel (self : LoPassKernel ℝ) (x1 x2 y1 y2 : ℂ) : LoPassKernel ℂ where
  mA0 := (self.mA0 : ℂ)
  mA1 := (self.mA1 : ℂ)
  mA2 := (self.mA2 : ℂ)
  mB1 := (self.mB1 : ℂ)
  mB2 := (self.mB2 : ℂ)
  mX1 := x1
  mX2 := x2
  mY1 := y1
  mY2 := y2
  mLastCutoff := (self.mLastCutoff : ℂ)
  mLastResonance := (self.mLastResonance : ℂ)

end ComplexViews

/-! # Properties -/

/-! ## The coefficient computation -/

section Coefficients

variable {K : Type} [Field K]

/-- C1: `CalculateLopassParams(f, resDb)` sets the five coefficients to the
values of the specification's algorithm at `r = 10^(0.05 * (-resDb))`, that is
`a0 = 2*c3`, `a1 = 4*c3`, `a2 = 2*c3`, `b1 = -2*c2`, `b2 = 2*c1` for the
specification's `k`, `c1`, `c2`, `c3`; so `a0 = a2` and `a1 = 2*a0`; and the
registers and the cached pair keep their values. -/
theorem CalculateLopassParams_spec (L : Libm K) (self : LoPassKernel K) (f resDb : K) :
    coefficients (CalculateLopassParams L self f resDb)
        = specCoefficients L f (resonanceLinear L resDb)
      ∧ (CalculateLopassParams L self f resDb).mA0 = 2 * specC3 L f (L.pow 10 (0.05 * -resDb))
      ∧ (CalculateLopassParams L self f resDb).mA1 = 4 * specC3 L f (L.pow 10 (0.05 * -resDb))
      ∧ (CalculateLopassParams L self f resDb).mA2 = 2 * specC3 L f (L.pow 10 (0.05 * -resDb))
      ∧ (CalculateLopassParams L self f resDb).mB1 = -2 * specC2 L f (L.pow 10 (0.05 * -resDb))
      ∧ (CalculateLopassParams L self f resDb).mB2 = 2 * specC1 L f (L.pow 10 (0.05 * -resDb))
      ∧ (CalculateLopassParams L self f resDb).mA0 = (CalculateLopassParams L self f resDb).mA2
      ∧ (CalculateLopassParams L self f resDb).mA1
          = 2 * (CalculateLopassParams L self f resDb).mA0
      ∧ registers (CalculateLopassParams L self f resDb) = registers self
      ∧ lastApplied (CalculateLopassParams L self f resDb) = lastApplied self := by
  refine ⟨rfl, rfl, ?_, rfl, ?_, rfl, rfl, ?_, rfl, rfl⟩
  · simp only [CalculateLopassParams, specC3, specC2, specC1, specK]; ring
  · simp only [CalculateLopassParams, specC2, specC1, specK]; ring
  · simp only [CalculateLopassParams]; ring

end Coefficients

/-! ## The sample loop -/

section Loop

variable {K : Type} [Field K]

theorem sampleLoop_dest (x : List K) (self : LoPassKernel K) (dest : List K) :
    sampleLoop x self dest = (dest ++ (sampleLoop x self []).1, (sampleLoop x self []).2) := by
  induction x generalizing self dest with
  | nil => simp [sampleLoop]
  | cons input sourceP ih =>
    simp only [sampleLoop]
    rw [ih _ (dest ++ _), ih _ ([] ++ _)]
    simp

theorem sampleLoop_cons (input : K) (sourceP : List K) (self : LoPassKernel K) :
    sampleLoop (input :: sourceP) self []
      = ((loopBody self input).1 :: (sampleLoop sourceP (loopBody self input).2 []).1,
          (sampleLoop sourceP (loopBody self input).2 []).2) := by
  simp only [sampleLoop]
  rw [sampleLoop_dest]
  simp

theorem sampleLoop_append (x y : List K) (self : LoPassKernel K) :
    sampleLoop (x ++ y) self []
      = ((sampleLoop x self []).1 ++ (sampleLoop y (sampleLoop x self []).2 []).1,
          (sampleLoop y (sampleLoop x self []).2 []).2) := by
  induction x generalizing self with
  | nil => simp [sampleLoop]
  | cons input sourceP ih =>
    rw [List.cons_append, sampleLoop_cons, sampleLoop_cons, ih]
    simp

theorem sampleLoop_length (x : List K) (self : LoPassKernel K) :
    (sampleLoop x self []).1.length = x.length := by
  induction x generalizing self with
  | nil => simp [sampleLoop]
  | cons input sourceP ih => rw [sampleLoop_cons]; simp [ih]

theorem sampleLoop_frame (x : List K) (self : LoPassKernel K) :
    coefficients (sampleLoop x self []).2 = coefficients self
      ∧ lastApplied (sampleLoop x self []).2 = lastApplied self := by
  induction x generalizing self with
  | nil => simp [sampleLoop]
  | cons input sourceP ih =>
    rw [sampleLoop_cons]
    exact ⟨(ih _).1.trans rfl, (ih _).2.trans rfl⟩

theorem kernelBefore_succ (self : LoPassKernel K) (x : List K) (n : ℕ) (xn : K)
    (h : x[n]? = some xn) :
    kernelBefore self x (n + 1) = (loopBody (kernelBefore self x n) xn).2 := by
  have hn : n < x.length := (List.getElem?_eq_some_iff.mp h).1
  have hx : x[n] = xn := (List.getElem?_eq_some_iff.mp h).2
  unfold kernelBefore
  rw [List.take_succ, h, Option.toList, sampleLoop_append, sampleLoop_cons]
  simp [sampleLoop]

/-- C2: the sample loop of `Process` on a source `x` of length `N` writes `N`
samples; sample `n` is `a0*x[n] + a1*x1 + a2*x2 - b1*y1 - b2*y2` on the
registers as they stand before sample `n`, after which the registers are
`x1 = x[n]`, `x2` the former `x1`, `y1` the sample written and `y2` the former
`y1`; on an empty source nothing is written and the kernel is unchanged; and
the coefficients (and the cached pair) are the same before every sample and
after the loop as at its start. -/
theorem sampleLoop_recurrence (self : LoPassKernel K) (x : List K) :
    (sampleLoop x self []).1.length = x.length
      ∧ (∀ (n : ℕ) (xn : K), x[n]? = some xn →
          (sampleLoop x self []).1[n]?
              = some ((kernelBefore self x n).mA0 * xn
                  + (kernelBefore self x n).mA1 * (kernelBefore self x n).mX1
                  + (kernelBefore self x n).mA2 * (kernelBefore self x n).mX2
                  - (kernelBefore self x n).mB1 * (kernelBefore self x n).mY1
                  - (kernelBefore self x n).mB2 * (kernelBefore self x n).mY2)
            ∧ (kernelBefore self x (n + 1)).mX2 = (kernelBefore self x n).mX1
            ∧ (kernelBefore self x (n + 1)).mX1 = xn
            ∧ (kernelBefore self x (n + 1)).mY2 = (kernelBefore self x n).mY1
            ∧ some (kernelBefore self x (n + 1)).mY1 = (sampleLoop x self []).1[n]?)
      ∧ kernelBefore self x 0 = self
      ∧ (sampleLoop x self []).2 = kernelBefore self x x.length
      ∧ sampleLoop [] self [] = ([], self)
      ∧ (∀ n : ℕ, coefficients (kernelBefore self x n) = coefficients self
          ∧ lastApplied (kernelBefore self x n) = lastApplied self)
      ∧ coefficients (sampleLoop x self []).2 = coefficients self := by
  refine ⟨sampleLoop_length x self, ?_, by simp [kernelBefore, sampleLoop],
    by simp [kernelBefore], by simp [sampleLoop], fun n => sampleLoop_frame _ _,
    (sampleLoop_frame _ _).1⟩
  intro n xn h
  have hn : n < x.length := (List.getElem?_eq_some_iff.mp h).1
  have hx : x[n] = xn := (List.getElem?_eq_some_iff.mp h).2
  have hout : (sampleLoop x self []).1[n]? = some (loopBody (kernelBefore self x n) xn).1 := by
    have hsplit : x = x.take n ++ xn :: x.drop (n + 1) := by
      rw [← hx, ← List.drop_eq_getElem_cons hn, List.take_append_drop]
    have hlen : (sampleLoop (x.take n) self []).1.length = n := by
      rw [sampleLoop_length, List.length_take]; omega
    conv_lhs => rw [hsplit]
    rw [sampleLoop_append, sampleLoop_cons]
    simp only [kernelBefore]
    rw [List.getElem?_append_right (by omega)]
    simp [hlen]
  rw [kernelBefore_succ self x n xn h, hout]
  exact ⟨rfl, rfl, rfl, rfl, rfl⟩

/-- The witness of `sampleLoop_recurrence`: the second of two samples through a
kernel with rational coefficients. -/
theorem sampleLoop_recurrence_witness :
    ([1, 2] : List ℚ)[1]? = some 2
      ∧ (sampleLoop [(1 : ℚ), 2] ⟨1, 2, 3, 4, 5, 6, 7, 8, 9, 0, 0⟩ []).1[1]? = some 154 := by
  refine ⟨rfl, ?_⟩
  have h := ((sampleLoop_recurrence (⟨1, 2, 3, 4, 5, 6, 7, 8, 9, 0, 0⟩ : LoPassKernel ℚ)
    [1, 2]).2.1 1 2 rfl).1
  rw [h]
  simp only [kernelBefore, List.take, sampleLoop, loopBody]
  norm_num

end Loop

/-! ## The parameters of a block -/

section Parameters

variable {K : Type} [LinearOrderedField K]

theorem boundedParameters_eq (au : AudioUnit K) :
    boundedParameters au
      = (min 0.99 (2 * max au.cutoffFrequency 12 / au.sampleRate),
          min 20 (max (-20) au.resonance)) := by
  have h1 : (if au.cutoffFrequency < (12 : K) then (12 : K) else au.cutoffFrequency)
      = max au.cutoffFrequency 12 := by
    split_ifs with h
    · exact (max_eq_right h.le).symm
    · exact (max_eq_left (not_lt.mp h)).symm
  have h2 : (if au.resonance < (-20 : K) then (-20 : K) else au.resonance)
      = max (-20) au.resonance := by
    split_ifs with h
    · exact (max_eq_left h.le).symm
    · exact (max_eq_right (not_lt.mp h)).symm
  have h3 : ∀ x m : K, (if x > m then m else x) = min m x := by
    intro x m
    split_ifs with h
    · exact (min_eq_left h.le).symm
    · exact (min_eq_right (not_lt.mp h)).symm
  simp only [boundedParameters, kMinimumValue_LoPass_Frequency, kMinimumValue_LoPass_Resonance,
    kMaximumValue_LoPass_Resonance, h1, h2, h3]

theorem boundedParameters_cutoff_pos (au : AudioUnit K) (hsr : 0 < au.sampleRate) :
    0 < (boundedParameters au).1 := by
  rw [boundedParameters_eq]
  have h12 : (0 : K) < max au.cutoffFrequency 12 :=
    lt_of_lt_of_le (by norm_num) (le_max_right _ _)
  exact lt_min (by norm_num) (div_pos (mul_pos two_pos h12) hsr)

theorem boundedParameters_cutoff_le (au : AudioUnit K) :
    (boundedParameters au).1 ≤ 0.99 := by
  rw [boundedParameters_eq]
  exact min_le_left _ _

theorem boundedParameters_resonance_mem (au : AudioUnit K) :
    -20 ≤ (boundedParameters au).2 ∧ (boundedParameters au).2 ≤ 20 := by
  rw [boundedParameters_eq]
  exact ⟨le_min (by norm_num) (le_max_left _ _), min_le_left _ _⟩

/-- C4: for a sample rate `sr > 0`, raw cutoff `c` and raw resonance `q`, the
pair that `Process` compares with the cache and passes to
`CalculateLopassParams` is `(min(0.99, 2*max(c, 12)/sr), min(20, max(-20, q)))`;
its cutoff lies in `(0, 0.99]`; for `sr >= 24` it is the specification's
normalised cutoff and clamped resonance; and at `sr = 44100` a cutoff of
`30000` gives `0.99`, which is not `30000/22050`. -/
theorem boundedParameters_spec (sr c q : K) (hsr : 0 < sr) :
    (∀ (L : Libm K) (self : LoPassKernel K) (x : List K),
        Process L ⟨sr, c, q⟩ self x
          = sampleLoop x (updateCoefficients L self
              (min 0.99 (2 * max c 12 / sr)) (min 20 (max (-20) q))) [])
      ∧ boundedParameters ⟨sr, c, q⟩ = (min 0.99 (2 * max c 12 / sr), min 20 (max (-20) q))
      ∧ 0 < (boundedParameters ⟨sr, c, q⟩).1
      ∧ (boundedParameters ⟨sr, c, q⟩).1 ≤ 0.99
      ∧ (boundedParameters ⟨sr, c, q⟩).2 = specClampedResonance q
      ∧ (24 ≤ sr → (boundedParameters ⟨sr, c, q⟩).1 = specNormalizedCutoff sr c)
      ∧ (boundedParameters ⟨44100, 30000, q⟩).1 = 0.99
      ∧ (0.99 : K) ≠ 30000 / 22050 := by
  have hres : min (20 : K) (max (-20) q) = specClampedResonance q := by
    unfold specClampedResonance clamp
    rcases le_total q (-20) with h | h
    · rw [max_eq_left h, min_eq_right (h.trans (by norm_num)), min_eq_right (by norm_num),
        max_eq_left h]
    · rw [max_eq_right h]
      rcases le_total q 20 with h2 | h2
      · rw [min_eq_right h2, max_eq_right h]
      · rw [min_eq_left h2, max_eq_right (by norm_num)]
  refine ⟨fun L self x => ?_, boundedParameters_eq _, boundedParameters_cutoff_pos _ hsr,
    boundedParameters_cutoff_le _, ?_, ?_, ?_, by norm_num⟩
  · simp only [Process, boundedParameters_eq]
  · rw [boundedParameters_eq]; exact hres
  · intro h24
    rw [boundedParameters_eq]
    simp only [specNormalizedCutoff, clamp]
    have h12 : (12 : K) ≤ sr / 2 := by linarith
    rcases le_total c (sr / 2) with h | h
    · rw [min_eq_right h, max_comm]
    · rw [min_eq_left h, max_eq_right h12]
      have h1 : (0.99 : K) ≤ 2 * max c 12 / sr := by
        rw [le_div_iff₀ hsr]
        have : sr / 2 ≤ max c 12 := h.trans (le_max_left _ _)
        norm_num
        linarith
      have h2 : (0.99 : K) ≤ 2 * (sr / 2) / sr := by
        rw [le_div_iff₀ hsr]
        norm_num
        linarith
      rw [min_eq_left h1, min_eq_left h2]
  · rw [boundedParameters_eq]
    norm_num

/-- The witness of `boundedParameters_spec`: the end-to-end scenario of the
specification, sample rate 44100 and requested cutoff 30000. -/
theorem boundedParameters_spec_witness :
    (0 : ℚ) < 44100 ∧ boundedParameters (⟨44100, 30000, 0⟩ : AudioUnit ℚ) = (0.99, 0) := by
  refine ⟨by norm_num, ?_⟩
  rw [(boundedParameters_spec (44100 : ℚ) 30000 0 (by norm_num)).2.1]
  norm_num

end Parameters

/-! ## The change-detection gate and Reset -/

section Gate

variable {K : Type} [LinearOrderedField K]

theorem updateCoefficients_of_eq (L : Libm K) (self : LoPassKernel K) (cutoff resonance : K)
    (h : (cutoff, resonance) = lastApplied self) :
    updateCoefficients L self cutoff resonance = self := by
  have h1 : cutoff = self.mLastCutoff := congrArg Prod.fst h
  have h2 : resonance = self.mLastResonance := congrArg Prod.snd h
  simp [updateCoefficients, h1, h2]

theorem updateCoefficients_of_ne (L : Libm K) (self : LoPassKernel K) (cutoff resonance : K)
    (h : (cutoff, resonance) ≠ lastApplied self) :
    updateCoefficients L self cutoff resonance
      = { CalculateLopassParams L self cutoff resonance with
          mLastCutoff := cutoff
          mLastResonance := resonance } := by
  have h1 : cutoff ≠ self.mLastCutoff ∨ resonance ≠ self.mLastResonance := by
    by_contra hc
    push_neg at hc
    exact h (by rw [lastApplied, hc.1, hc.2])
  simp only [updateCoefficients, if_pos h1]

theorem updateCoefficients_lastApplied (L : Libm K) (self : LoPassKernel K)
    (cutoff resonance : K) :
    lastApplied (updateCoefficients L self cutoff resonance) = (cutoff, resonance) := by
  by_cases h : (cutoff, resonance) = lastApplied self
  · rw [updateCoefficients_of_eq L self cutoff resonance h, h]
  · rw [updateCoefficients_of_ne L self cutoff resonance h]
    rfl

theorem updateCoefficients_registers (L : Libm K) (self : LoPassKernel K)
    (cutoff resonance : K) :
    registers (updateCoefficients L self cutoff resonance) = registers self := by
  by_cases h : (cutoff, resonance) = lastApplied self
  · rw [updateCoefficients_of_eq L self cutoff resonance h]
  · rw [updateCoefficients_of_ne L self cutoff resonance h]
    rfl

theorem boundedParameters_ne_sentinel (au : AudioUnit K) (hsr : 0 < au.sampleRate)
    (self : LoPassKernel K) :
    ((boundedParameters au).1, (boundedParameters au).2) ≠ lastApplied (Reset self) := by
  intro h
  have h1 : (boundedParameters au).1 = -1 := congrArg Prod.fst h
  have h2 := boundedParameters_cutoff_pos au hsr
  rw [h1] at h2
  norm_num at h2

theorem Process_frame (L : Libm K) (au : AudioUnit K) (self : LoPassKernel K) (x : List K) :
    coefficients (Process L au self x).2
      = coefficients (updateCoefficients L self (boundedParameters au).1
          (boundedParameters au).2) := by
  simp only [Process]
  exact (sampleLoop_frame _ _).1

/-- C5: in a `Process` call the coefficients are recomputed exactly when the
normalised cutoff or the clamped resonance of the call differs from the cached
pair: when both are equal the kernel enters the sample loop as it is, and the
coefficients and the cached pair after the call are those before it; when one
differs the coefficients are those of `CalculateLopassParams` at the pair of the
call, which becomes the cached pair.  So the second of two consecutive blocks
with the same host values does not recompute and uses the coefficients of the
first. -/
theorem Process_memoization (L : Libm K) (au : AudioUnit K) (self : LoPassKernel K)
    (x : List K) :
    (boundedParameters au = lastApplied self →
        updateCoefficients L self (boundedParameters au).1 (boundedParameters au).2 = self
          ∧ coefficients (Process L au self x).2 = coefficients self
          ∧ lastApplied (Process L au self x).2 = lastApplied self)
      ∧ (boundedParameters au ≠ lastApplied self →
          updateCoefficients L self (boundedParameters au).1 (boundedParameters au).2
              = { CalculateLopassParams L self (boundedParameters au).1 (boundedParameters au).2
                  with
                  mLastCutoff := (boundedParameters au).1
                  mLastResonance := (boundedParameters au).2 }
            ∧ coefficients (Process L au self x).2
              = coefficients (CalculateLopassParams L self (boundedParameters au).1
                  (boundedParameters au).2)
            ∧ lastApplied (Process L au self x).2 = boundedParameters au)
      ∧ (∀ y : List K,
          updateCoefficients L (Process L au self x).2 (boundedParameters au).1
              (boundedParameters au).2 = (Process L au self x).2
            ∧ coefficients (Process L au (Process L au self x).2 y).2
              = coefficients (Process L au self x).2) := by
  have hlast : lastApplied (Process L au self x).2 = boundedParameters au := by
    simp only [Process]
    rw [(sampleLoop_frame _ _).2, updateCoefficients_lastApplied]
  have hstay : updateCoefficients L (Process L au self x).2 (boundedParameters au).1
      (boundedParameters au).2 = (Process L au self x).2 :=
    updateCoefficients_of_eq L _ _ _ hlast.symm
  refine ⟨fun h => ?_, fun h => ?_, fun y => ⟨hstay, ?_⟩⟩
  · have hs := updateCoefficients_of_eq L self (boundedParameters au).1 (boundedParameters au).2 h
    refine ⟨hs, ?_, hlast.trans h⟩
    simp only [Process]
    rw [(sampleLoop_frame _ _).1, hs]
  · have hs := updateCoefficients_of_ne L self (boundedParameters au).1 (boundedParameters au).2 h
    refine ⟨hs, ?_, hlast⟩
    simp only [Process]
    rw [(sampleLoop_frame _ _).1, hs]
    rfl
  · rw [Process_frame, hstay]

/-- The witness of `Process_memoization`: a block at sample rate 44100, cutoff
1000 and resonance 0 on a kernel whose cached pair is `(20/441, 0)`. -/
theorem Process_memoization_witness :
    boundedParameters (⟨44100, 1000, 0⟩ : AudioUnit ℝ)
        = lastApplied (⟨1, 2, 1, 0, 0, 0, 0, 0, 0, 20 / 441, 0⟩ : LoPassKernel ℝ)
      ∧ coefficients (Process realLibm ⟨44100, 1000, 0⟩
          (⟨1, 2, 1, 0, 0, 0, 0, 0, 0, 20 / 441, 0⟩ : LoPassKernel ℝ) [1, 0]).2
        = (1, 2, 1, 0, 0) := by
  have h : boundedParameters (⟨44100, 1000, 0⟩ : AudioUnit ℝ)
      = lastApplied (⟨1, 2, 1, 0, 0, 0, 0, 0, 0, 20 / 441, 0⟩ : LoPassKernel ℝ) := by
    rw [boundedParameters_eq, lastApplied]
    norm_num
  exact ⟨h, ((Process_memoization realLibm ⟨44100, 1000, 0⟩ _ [1, 0]).1 h).2.1⟩

/-- C6: after `Reset` (so also after construction) the cached pair is
`(-1, -1)`, which no pair derived by `Process` at a sample rate above zero
equals; the next `Process` call therefore recomputes the coefficients, whatever
the host values and whatever the kernel held before the `Reset`. -/
theorem Process_after_Reset_recomputes (L : Libm K) (au : AudioUnit K) (self : LoPassKernel K)
    (x : List K) (hsr : 0 < au.sampleRate) :
    lastApplied (Reset self) = (-1, -1)
      ∧ boundedParameters au ≠ (-1, -1)
      ∧ updateCoefficients L (Reset self) (boundedParameters au).1 (boundedParameters au).2
          = { CalculateLopassParams L (Reset self) (boundedParameters au).1
                (boundedParameters au).2 with
              mLastCutoff := (boundedParameters au).1
              mLastResonance := (boundedParameters au).2 }
      ∧ coefficients (Process L au (Reset self) x).2
          = coefficients (CalculateLopassParams L self (boundedParameters au).1
              (boundedParameters au).2)
      ∧ lastApplied (Process L au (Reset self) x).2 = boundedParameters au := by
  have hne := boundedParameters_ne_sentinel au hsr self
  have hs := updateCoefficients_of_ne L (Reset self) _ _ hne
  refine ⟨rfl, hne, hs, ?_, ?_⟩
  · simp only [Process]
    rw [(sampleLoop_frame _ _).1, hs]
    rfl
  · simp only [Process]
    rw [(sampleLoop_frame _ _).2, updateCoefficients_lastApplied]

/-- The witness of `Process_after_Reset_recomputes`: the host values are the
sentinel values themselves, cutoff `-1` and resonance `-1`, at sample rate
44100. -/
theorem Process_after_Reset_recomputes_witness :
    (0 : ℝ) < (⟨44100, -1, -1⟩ : AudioUnit ℝ).sampleRate
      ∧ lastApplied (Process realLibm ⟨44100, -1, -1⟩
          (Reset (⟨1, 2, 1, 0, 0, 0, 0, 0, 0, 20 / 441, 0⟩ : LoPassKernel ℝ)) [1, 0]).2
        = (4 / 7350, -1) := by
  have hsr : (0 : ℝ) < (⟨44100, -1, -1⟩ : AudioUnit ℝ).sampleRate := by norm_num
  refine ⟨hsr, ?_⟩
  rw [(Process_after_Reset_recomputes realLibm ⟨44100, -1, -1⟩ _ [1, 0] hsr).2.2.2.2,
    boundedParameters_eq]
  norm_num

theorem sampleLoop_silence (self : LoPassKernel K) (h : registers self = (0, 0, 0, 0))
    (N : ℕ) :
    sampleLoop (List.replicate N 0) self [] = (List.replicate N 0, self) := by
  have hb : loopBody self 0 = (0, self) := by
    obtain ⟨a0, a1, a2, b1, b2, x1, x2, y1, y2, lc, lr⟩ := self
    simp only [registers, Prod.mk.injEq] at h
    obtain ⟨rfl, rfl, rfl, rfl⟩ := h
    simp [loopBody]
  induction N with
  | zero => simp [sampleLoop]
  | succ N ih => rw [List.replicate_succ, sampleLoop_cons, hb, ih]

/-- C8: after `Reset`, from any kernel, the four registers are zero; and a
`Process` call made directly after `Reset` on a block of `N` zeros, at any
sample rate and any host cutoff and resonance, writes `N` zeros and leaves the
four registers zero. -/
theorem Reset_silence (L : Libm K) (au : AudioUnit K) (self : LoPassKernel K) (N : ℕ) :
    registers (Reset self) = (0, 0, 0, 0)
      ∧ (Process L au (Reset self) (List.replicate N 0)).1 = List.replicate N 0
      ∧ registers (Process L au (Reset self) (List.replicate N 0)).2 = (0, 0, 0, 0) := by
  have hr : registers (updateCoefficients L (Reset self) (boundedParameters au).1
      (boundedParameters au).2) = (0, 0, 0, 0) := by
    rw [updateCoefficients_registers]; rfl
  refine ⟨rfl, ?_, ?_⟩
  · simp only [Process]
    rw [sampleLoop_silence _ hr]
  · simp only [Process]
    rw [sampleLoop_silence _ hr]
    exact hr

theorem CalculateLopassParams_coefficients (L : Libm K) (self other : LoPassKernel K)
    (f resDb : K) :
    coefficients (CalculateLopassParams L self f resDb)
      = coefficients (CalculateLopassParams L other f resDb) := rfl

theorem cacheSound_Reset (L : Libm K) (self : LoPassKernel K) : CacheSound L (Reset self) :=
  Or.inl rfl

/-- Under a sound cache and a sample rate above zero, the kernel that enters the
sample loop is the one the reference kernel enters it with. -/
theorem updateCoefficients_eq_recomputed (L : Libm K) (au : AudioUnit K) (self : LoPassKernel K)
    (hsr : 0 < au.sampleRate) (hc : CacheSound L self) :
    updateCoefficients L self (boundedParameters au).1 (boundedParameters au).2
      = { CalculateLopassParams L self (boundedParameters au).1 (boundedParameters au).2 with
          mLastCutoff := (boundedParameters au).1
          mLastResonance := (boundedParameters au).2 } := by
  by_cases h : ((boundedParameters au).1, (boundedParameters au).2) = lastApplied self
  · rw [updateCoefficients_of_eq L self _ _ h]
    rcases hc with hs | hs
    · exfalso
      have h1 : (boundedParameters au).1 = -1 := congrArg Prod.fst (h.trans hs)
      have h2 := boundedParameters_cutoff_pos au hsr
      rw [h1] at h2
      norm_num at h2
    · have h1 : (boundedParameters au).1 = self.mLastCutoff := congrArg Prod.fst h
      have h2 : (boundedParameters au).2 = self.mLastResonance := congrArg Prod.snd h
      rw [h1, h2]
      obtain ⟨a0, a1, a2, b1, b2, x1, x2, y1, y2, lc, lr⟩ := self
      simp only [coefficients, Prod.mk.injEq] at hs
      obtain ⟨e0, e1, e2, e3, e4⟩ := hs
      simp only [CalculateLopassParams, LoPassKernel.mk.injEq] at e0 e1 e2 e3 e4 ⊢
      simp only [and_true]
      exact ⟨e0, e1, e2, e3, e4⟩
  · exact updateCoefficients_of_ne L self _ _ h

theorem Process_eq_recomputing (L : Libm K) (au : AudioUnit K) (self : LoPassKernel K)
    (x : List K) (hsr : 0 < au.sampleRate) (hc : CacheSound L self) :
    Process L au self x = ProcessRecomputing L au self x := by
  simp only [Process, ProcessRecomputing]
  rw [updateCoefficients_eq_recomputed L au self hsr hc]

theorem cacheSound_Process (L : Libm K) (au : AudioUnit K) (self : LoPassKernel K)
    (x : List K) (hsr : 0 < au.sampleRate) (hc : CacheSound L self) :
    CacheSound L (Process L au self x).2 := by
  right
  have hl : lastApplied (Process L au self x).2 = boundedParameters au := by
    simp only [Process]
    rw [(sampleLoop_frame _ _).2, updateCoefficients_lastApplied]
  have h1 : (Process L au self x).2.mLastCutoff = (boundedParameters au).1 :=
    congrArg Prod.fst hl
  have h2 : (Process L au self x).2.mLastResonance = (boundedParameters au).2 :=
    congrArg Prod.snd hl
  rw [Process_frame, updateCoefficients_eq_recomputed L au self hsr hc, h1, h2]
  rfl

theorem runCalls_eq_recomputing (L : Libm K) (calls : List (Call K)) (self : LoPassKernel K)
    (hsr : ∀ c ∈ calls, c.sampleRatePositive) (hc : CacheSound L self) :
    runCalls L self calls = runCallsRecomputing L self calls := by
  induction calls generalizing self with
  | nil => rfl
  | cons c calls ih =>
    have htail : ∀ c ∈ calls, c.sampleRatePositive := fun c h => hsr c (List.mem_cons_of_mem _ h)
    cases c with
    | reset =>
      simp only [runCalls, runCallsRecomputing]
      exact ih (Reset self) htail (cacheSound_Reset L self)
    | process au x =>
      have hpos : 0 < au.sampleRate := hsr _ (List.mem_cons_self _ _)
      simp only [runCalls, runCallsRecomputing]
      rw [← Process_eq_recomputing L au self x hpos hc,
        ih _ htail (cacheSound_Process L au self x hpos hc)]

theorem cacheSound_runCalls (L : Libm K) (calls : List (Call K)) (self : LoPassKernel K)
    (hsr : ∀ c ∈ calls, c.sampleRatePositive) (hc : CacheSound L self) :
    CacheSound L (runCalls L self calls).2 := by
  induction calls generalizing self with
  | nil => exact hc
  | cons c calls ih =>
    have htail : ∀ c ∈ calls, c.sampleRatePositive := fun c h => hsr c (List.mem_cons_of_mem _ h)
    cases c with
    | reset => exact ih (Reset self) htail (cacheSound_Reset L self)
    | process au x =>
      have hpos : 0 < au.sampleRate := hsr _ (List.mem_cons_self _ _)
      exact ih _ htail (cacheSound_Process L au self x hpos hc)

/-- C7: the change-detection gate is transparent.  For every sequence of `Reset`
and `Process` calls that begins with `Reset`, from any kernel, with every sample
rate above zero: the blocks written and the kernel after the sequence (registers
included) are those of the reference kernel that recomputes the coefficients on
every block; and a further `Process` call runs its sample loop with the
coefficients `CalculateLopassParams` gives at its own normalised cutoff and
clamped resonance, writing what the reference kernel writes. -/
theorem gate_transparent (L : Libm K) (self : LoPassKernel K) (calls : List (Call K))
    (hsr : ∀ c ∈ calls, c.sampleRatePositive) :
    runCalls L self (Call.reset :: calls) = runCallsRecomputing L self (Call.reset :: calls)
      ∧ registers (runCalls L self (Call.reset :: calls)).2
          = registers (runCallsRecomputing L self (Call.reset :: calls)).2
      ∧ (∀ (au : AudioUnit K) (x : List K), 0 < au.sampleRate →
          coefficients (updateCoefficients L (runCalls L self (Call.reset :: calls)).2
              (boundedParameters au).1 (boundedParameters au).2)
            = coefficients (CalculateLopassParams L (runCalls L self (Call.reset :: calls)).2
                (boundedParameters au).1 (boundedParameters au).2)
          ∧ Process L au (runCalls L self (Call.reset :: calls)).2 x
            = ProcessRecomputing L au (runCallsRecomputing L self (Call.reset :: calls)).2 x) := by
  have hall : ∀ c ∈ Call.reset :: calls, c.sampleRatePositive := by
    intro c h
    rcases List.mem_cons.mp h with rfl | h
    · exact True.intro
    · exact hsr c h
  have hrun : runCalls L self (Call.reset :: calls)
      = runCallsRecomputing L self (Call.reset :: calls) := by
    simp only [runCalls, runCallsRecomputing]
    exact runCalls_eq_recomputing L calls (Reset self) hsr (cacheSound_Reset L self)
  have hsound : CacheSound L (runCalls L self (Call.reset :: calls)).2 := by
    simp only [runCalls]
    exact cacheSound_runCalls L calls (Reset self) hsr (cacheSound_Reset L self)
  refine ⟨hrun, by rw [hrun], fun au x hpos => ⟨?_, ?_⟩⟩
  · rw [updateCoefficients_eq_recomputed L au _ hpos hsound]
    rfl
  · rw [Process_eq_recomputing L au _ x hpos hsound, hrun]

/-- The witness of `gate_transparent`: two blocks with the same host values and
a third at another cutoff, from a kernel whose cached pair already equals the
pair of the first block. -/
theorem gate_transparent_witness :
    (∀ c ∈ [Call.process (⟨44100, 1000, 0⟩ : AudioUnit ℝ) [1, 0],
          Call.process ⟨44100, 1000, 0⟩ [0, 0], Call.process ⟨44100, 200, -5⟩ [0]],
        c.sampleRatePositive)
      ∧ runCalls realLibm (⟨1, 2, 1, 0, 0, 5, 6, 7, 8, 20 / 441, 0⟩ : LoPassKernel ℝ)
          [Call.reset, Call.process ⟨44100, 1000, 0⟩ [1, 0],
            Call.process ⟨44100, 1000, 0⟩ [0, 0], Call.process ⟨44100, 200, -5⟩ [0]]
        = runCallsRecomputing realLibm ⟨1, 2, 1, 0, 0, 5, 6, 7, 8, 20 / 441, 0⟩
          [Call.reset, Call.process ⟨44100, 1000, 0⟩ [1, 0],
            Call.process ⟨44100, 1000, 0⟩ [0, 0], Call.process ⟨44100, 200, -5⟩ [0]] := by
  have h : ∀ c ∈ [Call.process (⟨44100, 1000, 0⟩ : AudioUnit ℝ) [1, 0],
      Call.process ⟨44100, 1000, 0⟩ [0, 0], Call.process ⟨44100, 200, -5⟩ [0]],
      c.sampleRatePositive := by
    intro c hc
    simp only [List.mem_cons, List.mem_singleton, List.not_mem_nil, or_false] at hc
    rcases hc with rfl | rfl | rfl <;> simp [Call.sampleRatePositive]
  exact ⟨h, (gate_transparent realLibm _ _ h).1⟩

end Gate

/-! ## Stability of the computed coefficients -/

section Stability

/-- Every complex root of `z^2 + b1*z + b2` lies inside the unit circle when
`(b1, b2)` lies in the stability triangle. -/
theorem abs_lt_one_of_root (b1 b2 : ℝ) (h2 : |b2| < 1) (h1 : |b1| < 1 + b2) (z : ℂ)
    (hz : z ^ 2 + (b1 : ℂ) * z + (b2 : ℂ) = 0) : Complex.abs z < 1 := by
  have hre : z.re * z.re - z.im * z.im + b1 * z.re + b2 = 0 := by
    have h := congrArg Complex.re hz
    simpa [pow_two] using h
  have him : z.re * z.im + z.im * z.re + b1 * z.im = 0 := by
    have h := congrArg Complex.im hz
    simpa [pow_two] using h
  obtain ⟨h2l, h2u⟩ := abs_lt.mp h2
  obtain ⟨h1l, h1u⟩ := abs_lt.mp h1
  have hsq : z.re * z.re + z.im * z.im < 1 := by
    by_cases hy : z.im = 0
    · rw [hy] at hre ⊢
      by_contra hx
      push_neg at hx
      rcases le_or_lt 0 z.re with h0 | h0
      · have hx1 : 1 ≤ z.re := by nlinarith
        nlinarith
      · have hx1 : z.re ≤ -1 := by nlinarith
        nlinarith
    · have hx : 2 * z.re + b1 = 0 := by
        have hm : (2 * z.re + b1) * z.im = 0 := by linarith
        rcases mul_eq_zero.mp hm with h | h
        · exact h
        · exact absurd h hy
      nlinarith
  rw [Complex.abs_apply, Complex.normSq_apply, Real.sqrt_lt' one_pos]
  linarith

/-- The two complex roots of `z^2 + b1*z + b2`, by their sum and product. -/
theorem exists_roots (b1 b2 : ℝ) :
    ∃ z1 z2 : ℂ, z1 + z2 = -(b1 : ℂ) ∧ z1 * z2 = (b2 : ℂ)
      ∧ z1 ^ 2 + (b1 : ℂ) * z1 + (b2 : ℂ) = 0 ∧ z2 ^ 2 + (b1 : ℂ) * z2 + (b2 : ℂ) = 0 := by
  obtain ⟨s, hs⟩ := IsAlgClosed.exists_pow_nat_eq ((b1 : ℂ) ^ 2 - 4 * (b2 : ℂ)) two_pos
  have hb2 : (b2 : ℂ) = ((b1 : ℂ) ^ 2 - s ^ 2) / 4 := by rw [hs]; ring
  refine ⟨(-(b1 : ℂ) + s) / 2, (-(b1 : ℂ) - s) / 2, by ring, ?_, ?_, ?_⟩
  · rw [hb2]; ring
  · rw [hb2]; ring
  · rw [hb2]; ring

/-- The stability triangle is exactly the condition that both roots lie inside
the unit circle. -/
theorem roots_in_disc_iff (b1 b2 : ℝ) :
    (∀ z : ℂ, z ^ 2 + (b1 : ℂ) * z + (b2 : ℂ) = 0 → Complex.abs z < 1)
      ↔ (|b2| < 1 ∧ |b1| < 1 + b2) := by
  constructor
  · intro h
    have hreal : ∀ x : ℝ, x * x + b1 * x + b2 = 0 → |x| < 1 := by
      intro x hx
      have hz : ((x : ℝ) : ℂ) ^ 2 + (b1 : ℂ) * (x : ℂ) + (b2 : ℂ) = 0 := by
        rw [pow_two]
        exact_mod_cast hx
      have := h (x : ℂ) hz
      rwa [Complex.abs_ofReal] at this
    have hb2 : |b2| < 1 := by
      obtain ⟨z1, z2, -, hprod, hz1, hz2⟩ := exists_roots b1 b2
      have habs : Complex.abs (b2 : ℂ) = Complex.abs z1 * Complex.abs z2 := by
        rw [← hprod, map_mul]
      rw [Complex.abs_ofReal] at habs
      rw [habs]
      have h1 := h z1 hz1
      have h2 := h z2 hz2
      have n1 := Complex.abs.nonneg z1
      have n2 := Complex.abs.nonneg z2
      nlinarith
    refine ⟨hb2, ?_⟩
    rw [abs_lt]
    constructor
    · by_contra hc
      push_neg at hc
      have hD : 0 ≤ b1 ^ 2 - 4 * b2 := by nlinarith [sq_nonneg (b1 + 2)]
      have hs := Real.sq_sqrt hD
      have hs0 := Real.sqrt_nonneg (b1 ^ 2 - 4 * b2)
      have hroot := hreal ((-b1 + Real.sqrt (b1 ^ 2 - 4 * b2)) / 2) (by nlinarith)
      have hge : 2 + b1 ≤ Real.sqrt (b1 ^ 2 - 4 * b2) := by
        apply Real.le_sqrt_of_sq_le
        nlinarith
      rw [abs_lt] at hroot
      linarith [hroot.2]
    · by_contra hc
      push_neg at hc
      have hD : 0 ≤ b1 ^ 2 - 4 * b2 := by nlinarith [sq_nonneg (b1 - 2)]
      have hs := Real.sq_sqrt hD
      have hs0 := Real.sqrt_nonneg (b1 ^ 2 - 4 * b2)
      have hroot := hreal ((-b1 - Real.sqrt (b1 ^ 2 - 4 * b2)) / 2) (by nlinarith)
      have hge : 2 - b1 ≤ Real.sqrt (b1 ^ 2 - 4 * b2) := by
        apply Real.le_sqrt_of_sq_le
        nlinarith
      rw [abs_lt] at hroot
      linarith [hroot.1]
  · rintro ⟨h2, h1⟩ z hz
    exact abs_lt_one_of_root b1 b2 h2 h1 z hz

theorem specK_pos (f resDb : ℝ) (hf0 : 0 < f) (hf1 : f < 1) :
    0 < specK realLibm f (resonanceLinear realLibm resDb) := by
  have hr : (0 : ℝ) < (10 : ℝ) ^ (0.05 * -resDb) := Real.rpow_pos_of_pos (by norm_num) _
  have hs : 0 < Real.sin (Real.pi * f) :=
    Real.sin_pos_of_pos_of_lt_pi (mul_pos Real.pi_pos hf0)
      (by nlinarith [Real.pi_pos])
  simp only [specK, resonanceLinear, realLibm]
  positivity

theorem cos_sq_lt_one (f : ℝ) (hf0 : 0 < f) (hf1 : f < 1) :
    Real.cos (Real.pi * f) ^ 2 < 1 := by
  have hs : 0 < Real.sin (Real.pi * f) :=
    Real.sin_pos_of_pos_of_lt_pi (mul_pos Real.pi_pos hf0)
      (by nlinarith [Real.pi_pos])
  have h := Real.sin_sq_add_cos_sq (Real.pi * f)
  nlinarith

theorem CalculateLopassParams_mB2 (self : LoPassKernel ℝ) (f resDb : ℝ)
    (hk : 0 < specK realLibm f (resonanceLinear realLibm resDb)) :
    (CalculateLopassParams realLibm self f resDb).mB2
      = (1 - specK realLibm f (resonanceLinear realLibm resDb))
        / (1 + specK realLibm f (resonanceLinear realLibm resDb)) := by
  have h : (CalculateLopassParams realLibm self f resDb).mB2
      = 2 * specC1 realLibm f (resonanceLinear realLibm resDb) := rfl
  rw [h, specC1]
  have hne : 1 + specK realLibm f (resonanceLinear realLibm resDb) ≠ 0 := by linarith
  field_simp
  ring

theorem CalculateLopassParams_mB1 (self : LoPassKernel ℝ) (f resDb : ℝ) :
    (CalculateLopassParams realLibm self f resDb).mB1
      = -((1 + (CalculateLopassParams realLibm self f resDb).mB2) * Real.cos (Real.pi * f)) := by
  simp only [CalculateLopassParams, realLibm]
  ring

/-- The coefficients computed at a normalised cutoff in `(0, 1)` lie in the
stability triangle, whatever the resonance. -/
theorem CalculateLopassParams_triangle (self : LoPassKernel ℝ) (f resDb : ℝ) (hf0 : 0 < f)
    (hf1 : f < 1) :
    |(CalculateLopassParams realLibm self f resDb).mB2| < 1
      ∧ |(CalculateLopassParams realLibm self f resDb).mB1|
        < 1 + (CalculateLopassParams realLibm self f resDb).mB2 := by
  have hk := specK_pos f resDb hf0 hf1
  have hB2 := CalculateLopassParams_mB2 self f resDb hk
  have hB1 := CalculateLopassParams_mB1 self f resDb
  have hlt : (CalculateLopassParams realLibm self f resDb).mB2 < 1 := by
    rw [hB2, div_lt_one (by linarith)]
    linarith
  have hgt : 0 < 1 + (CalculateLopassParams realLibm self f resDb).mB2 := by
    rw [hB2]
    have hne : 1 + specK realLibm f (resonanceLinear realLibm resDb) ≠ 0 := by linarith
    have h2 : 1 + (1 - specK realLibm f (resonanceLinear realLibm resDb))
        / (1 + specK realLibm f (resonanceLinear realLibm resDb))
        = 2 / (1 + specK realLibm f (resonanceLinear realLibm resDb)) := by
      field_simp
      ring
    rw [h2]
    positivity
  have hcos : |Real.cos (Real.pi * f)| < 1 := by
    rw [← sq_lt_one_iff_abs_lt_one]
    exact cos_sq_lt_one f hf0 hf1
  refine ⟨abs_lt.mpr ⟨by linarith, hlt⟩, ?_⟩
  rw [hB1, abs_neg, abs_mul, abs_of_pos hgt]
  calc (1 + (CalculateLopassParams realLibm self f resDb).mB2) * |Real.cos (Real.pi * f)|
      < (1 + (CalculateLopassParams realLibm self f resDb).mB2) * 1 :=
        mul_lt_mul_of_pos_left hcos hgt
    _ = 1 + (CalculateLopassParams realLibm self f resDb).mB2 := mul_one _

/-- C3: for a normalised cutoff `f` in `(0, 0.99]` and every resonance (so every
resonance in `[-20, 20]` dB), the coefficients of `CalculateLopassParams` give a
stable filter: every complex root `z` of `z^2 + b1*z + b2 = 0` has `|z| < 1`;
this is equivalent to `|b2| < 1` and `|b1| < 1 + b2`, which hold as well. -/
theorem CalculateLopassParams_stable (self : LoPassKernel ℝ) (f resDb : ℝ) (hf0 : 0 < f)
    (hf1 : f ≤ 0.99) :
    (∀ z : ℂ,
        z ^ 2 + ((CalculateLopassParams realLibm self f resDb).mB1 : ℂ) * z
          + ((CalculateLopassParams realLibm self f resDb).mB2 : ℂ) = 0 →
        Complex.abs z < 1)
      ∧ (|(CalculateLopassParams realLibm self f resDb).mB2| < 1
        ∧ |(CalculateLopassParams realLibm self f resDb).mB1|
          < 1 + (CalculateLopassParams realLibm self f resDb).mB2)
      ∧ ((∀ z : ℂ,
          z ^ 2 + ((CalculateLopassParams realLibm self f resDb).mB1 : ℂ) * z
            + ((CalculateLopassParams realLibm self f resDb).mB2 : ℂ) = 0 →
          Complex.abs z < 1)
        ↔ (|(CalculateLopassParams realLibm self f resDb).mB2| < 1
          ∧ |(CalculateLopassParams realLibm self f resDb).mB1|
            < 1 + (CalculateLopassParams realLibm self f resDb).mB2)) := by
  have ht := CalculateLopassParams_triangle self f resDb hf0 (lt_of_le_of_lt hf1 (by norm_num))
  exact ⟨(roots_in_disc_iff _ _).mpr ht, ht, roots_in_disc_iff _ _⟩

/-- The witness of `CalculateLopassParams_stable`: normalised cutoff `1/2` and
resonance `0` dB, where `b1 = 0` and `b2 = 1/3`. -/
theorem CalculateLopassParams_stable_witness :
    (0 : ℝ) < 1 / 2 ∧ (1 / 2 : ℝ) ≤ 0.99
      ∧ |(CalculateLopassParams realLibm ⟨0, 0, 0, 0, 0, 0, 0, 0, 0, -1, -1⟩ (1 / 2) 0).mB2| < 1 :=
  ⟨by norm_num, by norm_num,
    (CalculateLopassParams_stable ⟨0, 0, 0, 0, 0, 0, 0, 0, 0, -1, -1⟩ (1 / 2) 0 (by norm_num)
      (by norm_num)).2.1.1⟩

end Stability

/-! ## The frequency response -/

section Response

theorem GetFrequencyResponse_eq (L : Libm ℝ) (au : AudioUnit ℝ) (self : LoPassKernel ℝ)
    (inFreq : ℝ) :
    GetFrequencyResponse L au self inFreq
      = (numMagnitude L au self inFreq / denMagnitude L au self inFreq, self) := rfl

theorem unitCirclePoint_re (sr freq : ℝ) :
    (unitCirclePoint sr freq).re = Real.cos (Real.pi * (2 * freq / sr)) := by
  rw [unitCirclePoint, Complex.exp_ofReal_mul_I_re]

theorem unitCirclePoint_im (sr freq : ℝ) :
    (unitCirclePoint sr freq).im = Real.sin (Real.pi * (2 * freq / sr)) := by
  rw [unitCirclePoint, Complex.exp_ofReal_mul_I_im]

theorem abs_unitCirclePoint (sr freq : ℝ) : Complex.abs (unitCirclePoint sr freq) = 1 := by
  rw [unitCirclePoint, Complex.abs_exp_ofReal_mul_I]

theorem numMagnitude_eq_abs (au : AudioUnit ℝ) (self : LoPassKernel ℝ) (freq : ℝ) :
    numMagnitude realLibm au self freq
      = Complex.abs ((self.mA0 : ℂ) * unitCirclePoint au.sampleRate freq ^ 2
          + (self.mA1 : ℂ) * unitCirclePoint au.sampleRate freq + (self.mA2 : ℂ)) := by
  rw [Complex.abs_apply, Complex.normSq_apply]
  simp only [numMagnitude, realLibm, pow_two, Complex.add_re, Complex.add_im, Complex.mul_re,
    Complex.mul_im, Complex.ofReal_re, Complex.ofReal_im, unitCirclePoint_re, unitCirclePoint_im]
  congr 1
  ring

theorem denMagnitude_eq_abs (au : AudioUnit ℝ) (self : LoPassKernel ℝ) (freq : ℝ) :
    denMagnitude realLibm au self freq
      = Complex.abs (unitCirclePoint au.sampleRate freq ^ 2
          + (self.mB1 : ℂ) * unitCirclePoint au.sampleRate freq + (self.mB2 : ℂ)) := by
  rw [Complex.abs_apply, Complex.normSq_apply]
  simp only [denMagnitude, realLibm, pow_two, Complex.add_re, Complex.add_im, Complex.mul_re,
    Complex.mul_im, Complex.ofReal_re, Complex.ofReal_im, unitCirclePoint_re, unitCirclePoint_im]
  congr 1
  ring

/-- On a point `z ≠ 0` where `z^2 + b1*z + b2 ≠ 0`, the transfer function is the
quotient of the two polynomials. -/
theorem transferFunction_mul (self : LoPassKernel ℝ) (z : ℂ) (hz : z ≠ 0)
    (hd : z ^ 2 + (self.mB1 : ℂ) * z + (self.mB2 : ℂ) ≠ 0) :
    transferFunction self z * (z ^ 2 + (self.mB1 : ℂ) * z + (self.mB2 : ℂ))
      = (self.mA0 : ℂ) * z ^ 2 + (self.mA1 : ℂ) * z + (self.mA2 : ℂ) := by
  have hd2 : 1 + (self.mB1 : ℂ) * z⁻¹ + (self.mB2 : ℂ) * (z⁻¹) ^ 2
      = (z ^ 2 + (self.mB1 : ℂ) * z + (self.mB2 : ℂ)) / z ^ 2 := by
    field_simp
    ring
  have hn2 : (self.mA0 : ℂ) + (self.mA1 : ℂ) * z⁻¹ + (self.mA2 : ℂ) * (z⁻¹) ^ 2
      = ((self.mA0 : ℂ) * z ^ 2 + (self.mA1 : ℂ) * z + (self.mA2 : ℂ)) / z ^ 2 := by
    field_simp
    ring
  rw [transferFunction, hd2, hn2]
  field_simp

/-- C10: where the divisor `den_mag` is not zero, `GetFrequencyResponse(freq)` is
`|a0*z^2 + a1*z + a2| / |z^2 + b1*z + b2|` at `z = e^{jθ}`, `θ = π*(2*freq/sr)`,
a point of the unit circle; this is `|H(z)|` for the transfer function
`H(z) = (a0 + a1 z⁻¹ + a2 z⁻²) / (1 + b1 z⁻¹ + b2 z⁻²)`; `H` is the transfer
function of the recurrence of `Process`, whose loop body answers the signal
`z^n` with `H(z)*z^n`; and the call leaves every field of the kernel as it
was. -/
theorem GetFrequencyResponse_spec (au : AudioUnit ℝ) (self : LoPassKernel ℝ) (freq : ℝ)
    (hden : denMagnitude realLibm au self freq ≠ 0) :
    (GetFrequencyResponse realLibm au self freq).1
        = Complex.abs ((self.mA0 : ℂ) * unitCirclePoint au.sampleRate freq ^ 2
            + (self.mA1 : ℂ) * unitCirclePoint au.sampleRate freq + (self.mA2 : ℂ))
          / Complex.abs (unitCirclePoint au.sampleRate freq ^ 2
            + (self.mB1 : ℂ) * unitCirclePoint au.sampleRate freq + (self.mB2 : ℂ))
      ∧ Complex.abs (unitCirclePoint au.sampleRate freq) = 1
      ∧ (GetFrequencyResponse realLibm au self freq).1
        = Complex.abs (transferFunction self (unitCirclePoint au.sampleRate freq))
      ∧ (∀ n : ℕ,
          loopBody
              (complexKernel self (unitCirclePoint au.sampleRate freq ^ (n + 1))
                (unitCirclePoint au.sampleRate freq ^ n)
                (transferFunction self (unitCirclePoint au.sampleRate freq)
                  * unitCirclePoint au.sampleRate freq ^ (n + 1))
                (transferFunction self (unitCirclePoint au.sampleRate freq)
                  * unitCirclePoint au.sampleRate freq ^ n))
              (unitCirclePoint au.sampleRate freq ^ (n + 2))
            = (transferFunction self (unitCirclePoint au.sampleRate freq)
                  * unitCirclePoint au.sampleRate freq ^ (n + 2),
                complexKernel self (unitCirclePoint au.sampleRate freq ^ (n + 2))
                  (unitCirclePoint au.sampleRate freq ^ (n + 1))
                  (transferFunction self (unitCirclePoint au.sampleRate freq)
                    * unitCirclePoint au.sampleRate freq ^ (n + 2))
                  (transferFunction self (unitCirclePoint au.sampleRate freq)
                    * unitCirclePoint au.sampleRate freq ^ (n + 1))))
      ∧ (GetFrequencyResponse realLibm au self freq).2 = self := by
  have hz : unitCirclePoint au.sampleRate freq ≠ 0 := by
    intro h
    have h1 := abs_unitCirclePoint au.sampleRate freq
    rw [h, map_zero] at h1
    exact zero_ne_one h1
  have hd : unitCirclePoint au.sampleRate freq ^ 2
      + (self.mB1 : ℂ) * unitCirclePoint au.sampleRate freq + (self.mB2 : ℂ) ≠ 0 := by
    intro h
    apply hden
    rw [denMagnitude_eq_abs, h, map_zero]
  have hH := transferFunction_mul self _ hz hd
  have hfst : (GetFrequencyResponse realLibm au self freq).1
      = Complex.abs ((self.mA0 : ℂ) * unitCirclePoint au.sampleRate freq ^ 2
          + (self.mA1 : ℂ) * unitCirclePoint au.sampleRate freq + (self.mA2 : ℂ))
        / Complex.abs (unitCirclePoint au.sampleRate freq ^ 2
          + (self.mB1 : ℂ) * unitCirclePoint au.sampleRate freq + (self.mB2 : ℂ)) := by
    rw [GetFrequencyResponse_eq, numMagnitude_eq_abs, denMagnitude_eq_abs]
  refine ⟨hfst, abs_unitCirclePoint _ _, ?_, fun n => ?_, rfl⟩
  · rw [hfst, ← hH, map_mul, mul_div_assoc, div_self, mul_one]
    exact fun h => hd ((map_eq_zero Complex.abs).mp h)
  · simp only [loopBody, complexKernel, Prod.mk.injEq, LoPassKernel.mk.injEq, true_and, and_true]
    have key : (self.mA0 : ℂ) * unitCirclePoint au.sampleRate freq ^ (n + 2)
        + (self.mA1 : ℂ) * unitCirclePoint au.sampleRate freq ^ (n + 1)
        + (self.mA2 : ℂ) * unitCirclePoint au.sampleRate freq ^ n
        - (self.mB1 : ℂ) * (transferFunction self (unitCirclePoint au.sampleRate freq)
            * unitCirclePoint au.sampleRate freq ^ (n + 1))
        - (self.mB2 : ℂ) * (transferFunction self (unitCirclePoint au.sampleRate freq)
            * unitCirclePoint au.sampleRate freq ^ n)
        = transferFunction self (unitCirclePoint au.sampleRate freq)
            * unitCirclePoint au.sampleRate freq ^ (n + 2) := by
      have e : (self.mA0 : ℂ) * unitCirclePoint au.sampleRate freq ^ (n + 2)
          + (self.mA1 : ℂ) * unitCirclePoint au.sampleRate freq ^ (n + 1)
          + (self.mA2 : ℂ) * unitCirclePoint au.sampleRate freq ^ n
          = ((self.mA0 : ℂ) * unitCirclePoint au.sampleRate freq ^ 2
            + (self.mA1 : ℂ) * unitCirclePoint au.sampleRate freq + (self.mA2 : ℂ))
            * unitCirclePoint au.sampleRate freq ^ n := by ring
      rw [e, ← hH]
      ring
    exact ⟨key, key⟩

/-- The witness of `GetFrequencyResponse_spec`: the query frequency `0` at
sample rate 44100 on the coefficients `(1, 2, 1, 0, 0)`. -/
theorem GetFrequencyResponse_spec_witness :
    denMagnitude realLibm ⟨44100, 1000, 0⟩ ⟨1, 2, 1, 0, 0, 0, 0, 0, 0, -1, -1⟩ 0 ≠ 0
      ∧ (GetFrequencyResponse realLibm ⟨44100, 1000, 0⟩
          ⟨1, 2, 1, 0, 0, 0, 0, 0, 0, -1, -1⟩ 0).2
        = ⟨1, 2, 1, 0, 0, 0, 0, 0, 0, -1, -1⟩ := by
  have h : denMagnitude realLibm ⟨44100, 1000, 0⟩ ⟨1, 2, 1, 0, 0, 0, 0, 0, 0, -1, -1⟩ 0 ≠ 0 := by
    simp [denMagnitude, realLibm]
  exact ⟨h, (GetFrequencyResponse_spec ⟨44100, 1000, 0⟩ _ 0 h).2.2.2.2⟩

end Response

/-! ## Decay of the impulse response -/

section Decay

theorem sampleLoop_zeros_getElem {K : Type} [Field K] (m : ℕ) (self : LoPassKernel K) (n : ℕ)
    (y : K) (h : (sampleLoop (List.replicate m 0) self []).1[n]? = some y) :
    y = zeroInputResponse self n := by
  induction m generalizing self n with
  | zero => simp [sampleLoop] at h
  | succ m ih =>
    rw [List.replicate_succ, sampleLoop_cons] at h
    cases n with
    | zero =>
      simp only [List.getElem?_cons_zero, Option.some.injEq] at h
      rw [← h, zeroInputResponse]
    | succ n =>
      simp only [List.getElem?_cons_succ] at h
      rw [zeroInputResponse]
      exact ih _ n h

theorem zeroInputResponse_recurrence {K : Type} [Field K] (self : LoPassKernel K) (n : ℕ) :
    zeroInputResponse self (n + 2)
      = -self.mB1 * zeroInputResponse self (n + 1) - self.mB2 * zeroInputResponse self n := by
  induction n generalizing self with
  | zero =>
    simp only [zeroInputResponse, loopBody]
    ring
  | succ n ih =>
    have h := ih (loopBody self 0).2
    simp only [zeroInputResponse] at h ⊢
    exact h

/-- A real sequence under the recurrence `w[n+2] = -b1*w[n+1] - b2*w[n]` with
`(b1, b2)` in the stability triangle decays geometrically, at a rate and with a
factor that depend on `(b1, b2)` alone. -/
theorem recurrence_decay (b1 b2 : ℝ) (h2 : |b2| < 1) (h1 : |b1| < 1 + b2) :
    ∃ M ρ : ℝ, 0 ≤ M ∧ 0 < ρ ∧ ρ < 1 ∧ ∀ w : ℕ → ℝ,
      (∀ n, w (n + 2) = -b1 * w (n + 1) - b2 * w n) →
      ∀ n, |w n| ≤ M * (|w 0| + |w 1|) * ρ ^ n := by
  obtain ⟨z1, z2, hsum, hprod, hz1, hz2⟩ := exists_roots b1 b2
  have a1 := abs_lt_one_of_root b1 b2 h2 h1 z1 hz1
  have a2 := abs_lt_one_of_root b1 b2 h2 h1 z2 hz2
  have n1 := Complex.abs.nonneg z1
  have n2 := Complex.abs.nonneg z2
  obtain ⟨r, hr1, hr2, hr0, hrlt⟩ : ∃ r : ℝ, Complex.abs z1 ≤ r ∧ Complex.abs z2 ≤ r
      ∧ 0 ≤ r ∧ r < 1 :=
    ⟨max (Complex.abs z1) (Complex.abs z2), le_max_left _ _, le_max_right _ _,
      le_max_of_le_left n1, max_lt a1 a2⟩
  have hgap : 0 < 1 - r := by linarith
  refine ⟨1 + 2 / (1 - r), (1 + r) / 2, by positivity, by linarith, by linarith, ?_⟩
  intro w hw
  have hu : ∀ n, (w (n + 1) : ℂ) - z1 * w n = z2 ^ n * ((w 1 : ℂ) - z1 * w 0) := by
    intro n
    induction n with
    | zero => simp
    | succ n ih =>
      have hc : (w (n + 1 + 1) : ℂ) = -(b1 : ℂ) * w (n + 1) - (b2 : ℂ) * w n := by
        rw [hw n]
        push_cast
        ring
      have hb : -(b1 : ℂ) = z1 + z2 := hsum.symm
      calc (w (n + 1 + 1) : ℂ) - z1 * w (n + 1)
          = z2 * ((w (n + 1) : ℂ) - z1 * w n) := by rw [hc, hb, ← hprod]; ring
        _ = z2 * (z2 ^ n * ((w 1 : ℂ) - z1 * w 0)) := by rw [ih]
        _ = z2 ^ (n + 1) * ((w 1 : ℂ) - z1 * w 0) := by ring
  have hU : Complex.abs ((w 1 : ℂ) - z1 * w 0) ≤ |w 0| + |w 1| := by
    calc Complex.abs ((w 1 : ℂ) - z1 * w 0)
        ≤ Complex.abs (w 1 : ℂ) + Complex.abs (z1 * w 0) := Complex.abs.sub_le_add _ _
      _ = |w 1| + Complex.abs z1 * |w 0| := by
          rw [map_mul, Complex.abs_ofReal, Complex.abs_ofReal]
      _ ≤ |w 0| + |w 1| := by nlinarith [abs_nonneg (w 0)]
  have hU0 := Complex.abs.nonneg ((w 1 : ℂ) - z1 * w 0)
  have hstep : ∀ n, |w (n + 1)|
      ≤ r * |w n| + r ^ n * Complex.abs ((w 1 : ℂ) - z1 * w 0) := by
    intro n
    have e : (w (n + 1) : ℂ) = z1 * w n + z2 ^ n * ((w 1 : ℂ) - z1 * w 0) := by
      rw [← hu n]; ring
    have hpow : Complex.abs z2 ^ n ≤ r ^ n := pow_le_pow_left₀ n2 hr2 n
    calc |w (n + 1)| = Complex.abs (w (n + 1) : ℂ) := (Complex.abs_ofReal _).symm
      _ = Complex.abs (z1 * w n + z2 ^ n * ((w 1 : ℂ) - z1 * w 0)) := by rw [e]
      _ ≤ Complex.abs (z1 * w n) + Complex.abs (z2 ^ n * ((w 1 : ℂ) - z1 * w 0)) :=
          Complex.abs.add_le _ _
      _ = Complex.abs z1 * |w n|
            + Complex.abs z2 ^ n * Complex.abs ((w 1 : ℂ) - z1 * w 0) := by
          rw [map_mul, map_mul, map_pow, Complex.abs_ofReal]
      _ ≤ r * |w n| + r ^ n * Complex.abs ((w 1 : ℂ) - z1 * w 0) :=
          add_le_add (mul_le_mul_of_nonneg_right hr1 (abs_nonneg _))
            (mul_le_mul_of_nonneg_right hpow hU0)
  have hB : ∀ n, |w n|
      ≤ (|w 0| + Complex.abs ((w 1 : ℂ) - z1 * w 0) * (2 / (1 - r))) * ((1 + r) / 2) ^ n := by
    intro n
    induction n with
    | zero =>
      have : 0 ≤ Complex.abs ((w 1 : ℂ) - z1 * w 0) * (2 / (1 - r)) := by positivity
      simpa using this
    | succ n ih =>
      have hrn : r ^ n ≤ ((1 + r) / 2) ^ n := pow_le_pow_left₀ hr0 (by linarith) n
      have hpos : 0 ≤ ((1 + r) / 2) ^ n := by positivity
      have hfrac : Complex.abs ((w 1 : ℂ) - z1 * w 0) * (2 / (1 - r)) * ((1 - r) / 2)
          = Complex.abs ((w 1 : ℂ) - z1 * w 0) := by
        field_simp
      have hw0 := abs_nonneg (w 0)
      calc |w (n + 1)| ≤ r * |w n| + r ^ n * Complex.abs ((w 1 : ℂ) - z1 * w 0) := hstep n
        _ ≤ r * ((|w 0| + Complex.abs ((w 1 : ℂ) - z1 * w 0) * (2 / (1 - r)))
              * ((1 + r) / 2) ^ n)
            + ((1 + r) / 2) ^ n * Complex.abs ((w 1 : ℂ) - z1 * w 0) :=
            add_le_add (mul_le_mul_of_nonneg_left ih hr0)
              (mul_le_mul_of_nonneg_right hrn hU0)
        _ = (r * (|w 0| + Complex.abs ((w 1 : ℂ) - z1 * w 0) * (2 / (1 - r)))
              + Complex.abs ((w 1 : ℂ) - z1 * w 0)) * ((1 + r) / 2) ^ n := by ring
        _ ≤ ((|w 0| + Complex.abs ((w 1 : ℂ) - z1 * w 0) * (2 / (1 - r))) * ((1 + r) / 2))
              * ((1 + r) / 2) ^ n := by
            apply mul_le_mul_of_nonneg_right _ hpos
            nlinarith
        _ = (|w 0| + Complex.abs ((w 1 : ℂ) - z1 * w 0) * (2 / (1 - r)))
              * ((1 + r) / 2) ^ (n + 1) := by ring
  intro n
  have hpos : 0 ≤ ((1 + r) / 2) ^ n := by positivity
  have hdiv : 0 ≤ 2 / (1 - r) := by positivity
  calc |w n| ≤ (|w 0| + Complex.abs ((w 1 : ℂ) - z1 * w 0) * (2 / (1 - r)))
        * ((1 + r) / 2) ^ n := hB n
    _ ≤ ((1 + 2 / (1 - r)) * (|w 0| + |w 1|)) * ((1 + r) / 2) ^ n := by
        apply mul_le_mul_of_nonneg_right _ hpos
        have h3 : Complex.abs ((w 1 : ℂ) - z1 * w 0) * (2 / (1 - r))
            ≤ (|w 0| + |w 1|) * (2 / (1 - r)) := mul_le_mul_of_nonneg_right hU hdiv
        nlinarith [abs_nonneg (w 1)]

/-- The kernel that enters the sample loop of a `Process` call made directly
after `Reset`, at a sample rate above zero: the coefficients computed at the
pair of the call, zero registers, and that pair cached; nothing of the kernel
before the `Reset` remains. -/
theorem updateCoefficients_Reset (L : Libm ℝ) (au : AudioUnit ℝ) (self other : LoPassKernel ℝ)
    (hsr : 0 < au.sampleRate) :
    updateCoefficients L (Reset self) (boundedParameters au).1 (boundedParameters au).2
      = updateCoefficients L (Reset other) (boundedParameters au).1 (boundedParameters au).2 := by
  rw [updateCoefficients_of_ne L (Reset self) _ _ (boundedParameters_ne_sentinel au hsr self),
    updateCoefficients_of_ne L (Reset other) _ _ (boundedParameters_ne_sentinel au hsr other)]
  rfl

/-- C9: for every sample rate above zero and every host cutoff and resonance
(so every cutoff in `[12, sampleRate/2]` and resonance in `[-20, 20]` dB), the
impulse response of the kernel, `Reset` then `Process` on `1.0` followed by any
number `m` of zeros, has `m + 1` samples and decays geometrically: there are
`C` and `ρ < 1`, the same for every `m` and every kernel before the `Reset`,
with `|y[n]| ≤ C * ρ^n` for every index `n`; so for every `ε > 0` all samples
from some index on are below `ε` in magnitude. -/
theorem impulse_response_decays (au : AudioUnit ℝ) (hsr : 0 < au.sampleRate) :
    ∃ C ρ : ℝ, 0 ≤ C ∧ 0 < ρ ∧ ρ < 1
      ∧ (∀ (self : LoPassKernel ℝ) (m : ℕ),
          (Process realLibm au (Reset self) (unitImpulse m)).1.length = m + 1)
      ∧ (∀ (self : LoPassKernel ℝ) (m n : ℕ) (y : ℝ),
          (Process realLibm au (Reset self) (unitImpulse m)).1[n]? = some y →
          |y| ≤ C * ρ ^ n)
      ∧ (∀ ε : ℝ, 0 < ε → ∃ N : ℕ, ∀ (self : LoPassKernel ℝ) (m n : ℕ) (y : ℝ), N ≤ n →
          (Process realLibm au (Reset self) (unitImpulse m)).1[n]? = some y →
          |y| < ε) := by
  obtain ⟨kA, hkA⟩ : ∃ kA : LoPassKernel ℝ, kA = updateCoefficients realLibm
      (Reset ⟨0, 0, 0, 0, 0, 0, 0, 0, 0, -1, -1⟩) (boundedParameters au).1
      (boundedParameters au).2 := ⟨_, rfl⟩
  have henter : ∀ self : LoPassKernel ℝ,
      updateCoefficients realLibm (Reset self) (boundedParameters au).1 (boundedParameters au).2
        = kA := fun self => by rw [hkA]; exact updateCoefficients_Reset _ au _ _ hsr
  have hcoef : coefficients kA = coefficients (CalculateLopassParams realLibm kA
      (boundedParameters au).1 (boundedParameters au).2) := by
    rw [hkA, updateCoefficients_of_ne realLibm _ _ _ (boundedParameters_ne_sentinel au hsr _)]
    rfl
  have hf0 := boundedParameters_cutoff_pos au hsr
  have hf1 : (boundedParameters au).1 < 1 :=
    lt_of_le_of_lt (boundedParameters_cutoff_le au) (by norm_num)
  have htri := CalculateLopassParams_triangle kA (boundedParameters au).1
    (boundedParameters au).2 hf0 hf1
  have hB1 : (CalculateLopassParams realLibm kA (boundedParameters au).1
      (boundedParameters au).2).mB1 = kA.mB1 := by
    have := congrArg (fun c => c.2.2.2.1) hcoef
    exact this.symm
  have hB2 : (CalculateLopassParams realLibm kA (boundedParameters au).1
      (boundedParameters au).2).mB2 = kA.mB2 := by
    have := congrArg (fun c => c.2.2.2.2) hcoef
    exact this.symm
  rw [hB1, hB2] at htri
  obtain ⟨M, ρ, hM, hρ0, hρ1, hdec⟩ := recurrence_decay kA.mB1 kA.mB2 htri.1 htri.2
  have hrec : ∀ n, zeroInputResponse (loopBody kA 1).2 (n + 2)
      = -kA.mB1 * zeroInputResponse (loopBody kA 1).2 (n + 1)
        - kA.mB2 * zeroInputResponse (loopBody kA 1).2 n :=
    fun n => zeroInputResponse_recurrence (loopBody kA 1).2 n
  have hw := hdec (zeroInputResponse (loopBody kA 1).2) hrec
  have hrun : ∀ (self : LoPassKernel ℝ) (m : ℕ),
      (Process realLibm au (Reset self) (unitImpulse m)).1
        = (loopBody kA 1).1 :: (sampleLoop (List.replicate m 0) (loopBody kA 1).2 []).1 := by
    intro self m
    simp only [Process, unitImpulse]
    rw [henter self, sampleLoop_cons]
  have hT : 0 ≤ M * (|zeroInputResponse (loopBody kA 1).2 0|
      + |zeroInputResponse (loopBody kA 1).2 1|) := by positivity
  have hbound : ∀ (self : LoPassKernel ℝ) (m n : ℕ) (y : ℝ),
      (Process realLibm au (Reset self) (unitImpulse m)).1[n]? = some y →
      |y| ≤ (|(loopBody kA 1).1| + M * (|zeroInputResponse (loopBody kA 1).2 0|
        + |zeroInputResponse (loopBody kA 1).2 1|) / ρ) * ρ ^ n := by
    intro self m n y h
    rw [hrun self m] at h
    have hq : 0 ≤ M * (|zeroInputResponse (loopBody kA 1).2 0|
        + |zeroInputResponse (loopBody kA 1).2 1|) / ρ := by positivity
    cases n with
    | zero =>
      simp only [List.getElem?_cons_zero, Option.some.injEq] at h
      rw [← h, pow_zero, mul_one]
      linarith
    | succ n =>
      simp only [List.getElem?_cons_succ] at h
      rw [sampleLoop_zeros_getElem m _ n y h]
      have hpos : 0 ≤ ρ ^ (n + 1) := by positivity
      calc |zeroInputResponse (loopBody kA 1).2 n|
          ≤ M * (|zeroInputResponse (loopBody kA 1).2 0|
              + |zeroInputResponse (loopBody kA 1).2 1|) * ρ ^ n := hw n
        _ = M * (|zeroInputResponse (loopBody kA 1).2 0|
              + |zeroInputResponse (loopBody kA 1).2 1|) / ρ * ρ ^ (n + 1) := by
            field_simp
            ring
        _ ≤ (|(loopBody kA 1).1| + M * (|zeroInputResponse (loopBody kA 1).2 0|
              + |zeroInputResponse (loopBody kA 1).2 1|) / ρ) * ρ ^ (n + 1) := by
            apply mul_le_mul_of_nonneg_right _ hpos
            linarith [abs_nonneg (loopBody kA 1).1]
  have hC : 0 ≤ |(loopBody kA 1).1| + M * (|zeroInputResponse (loopBody kA 1).2 0|
      + |zeroInputResponse (loopBody kA 1).2 1|) / ρ := by positivity
  refine ⟨_, ρ, hC, hρ0, hρ1, ?_, hbound, ?_⟩
  · intro self m
    rw [hrun self m, List.length_cons, sampleLoop_length, List.length_replicate]
  · intro ε hε
    obtain ⟨N, hN⟩ := exists_pow_lt_of_lt_one
      (div_pos hε (add_pos_of_nonneg_of_pos hC one_pos)) hρ1
    refine ⟨N, fun self m n y hn h => ?_⟩
    have h1 := hbound self m n y h
    have h2 : ρ ^ n ≤ ρ ^ N := pow_le_pow_of_le_one hρ0.le hρ1.le hn
    have h3 : 0 ≤ ρ ^ n := by positivity
    rw [lt_div_iff₀ (add_pos_of_nonneg_of_pos hC one_pos)] at hN
    nlinarith

/-- The witness of `impulse_response_decays`: sample rate 44100, cutoff 1000,
resonance 0 dB, and the impulse followed by 511 zeros. -/
theorem impulse_response_decays_witness :
    (0 : ℝ) < (⟨44100, 1000, 0⟩ : AudioUnit ℝ).sampleRate
      ∧ ∃ C ρ : ℝ, ρ < 1
        ∧ (Process realLibm ⟨44100, 1000, 0⟩ (Reset ⟨0, 0, 0, 0, 0, 0, 0, 0, 0, 0, 0⟩)
            (unitImpulse 511)).1.length = 512
        ∧ ∀ (n : ℕ) (y : ℝ),
          (Process realLibm ⟨44100, 1000, 0⟩ (Reset ⟨0, 0, 0, 0, 0, 0, 0, 0, 0, 0, 0⟩)
            (unitImpulse 511)).1[n]? = some y →
          |y| ≤ C * ρ ^ n := by
  have hsr : (0 : ℝ) < (⟨44100, 1000, 0⟩ : AudioUnit ℝ).sampleRate := by norm_num
  obtain ⟨C, ρ, -, -, hρ, hlen, hb, -⟩ := impulse_response_decays ⟨44100, 1000, 0⟩ hsr
  exact ⟨hsr, C, ρ, hρ, hlen _ 511, fun n y h => hb _ 511 n y h⟩

end Decay

/-! ## The gain of the computed filter -/

section Gain

theorem CalculateLopassParams_numerator (self : LoPassKernel ℝ) (f resDb : ℝ) :
    (CalculateLopassParams realLibm self f resDb).mA1
        = 2 * (CalculateLopassParams realLibm self f resDb).mA0
      ∧ (CalculateLopassParams realLibm self f resDb).mA2
        = (CalculateLopassParams realLibm self f resDb).mA0
      ∧ (CalculateLopassParams realLibm self f resDb).mA0
        = (1 + (CalculateLopassParams realLibm self f resDb).mB1
            + (CalculateLopassParams realLibm self f resDb).mB2) / 4 := by
  refine ⟨?_, rfl, ?_⟩
  · simp only [CalculateLopassParams]; ring
  · simp only [CalculateLopassParams]; ring

theorem CalculateLopassParams_dc_pos (self : LoPassKernel ℝ) (f resDb : ℝ) (hf0 : 0 < f)
    (hf1 : f < 1) :
    0 < 1 + (CalculateLopassParams realLibm self f resDb).mB1
      + (CalculateLopassParams realLibm self f resDb).mB2 := by
  have h := (abs_lt.mp (CalculateLopassParams_triangle self f resDb hf0 hf1).2).1
  linarith

/-- With `a1 = 2*a0` and `a2 = a0` the dividend `num_mag` is
`|2*a0*(1 + cos θ)|`. -/
theorem numMagnitude_eq (au : AudioUnit ℝ) (self : LoPassKernel ℝ) (freq : ℝ)
    (h1 : self.mA1 = 2 * self.mA0) (h2 : self.mA2 = self.mA0) :
    numMagnitude realLibm au self freq
      = |2 * self.mA0 * (1 + Real.cos (Real.pi * (2 * freq / au.sampleRate)))| := by
  have hs := Real.sin_sq_add_cos_sq (Real.pi * (2 * freq / au.sampleRate))
  simp only [numMagnitude, realLibm, h1, h2]
  rw [← Real.sqrt_sq_eq_abs]
  congr 1
  linear_combination (self.mA0 ^ 2 * (4 * (Real.cos (Real.pi * (2 * freq / au.sampleRate)) + 1)
    + (Real.sin (Real.pi * (2 * freq / au.sampleRate)) ^ 2
      + Real.cos (Real.pi * (2 * freq / au.sampleRate)) ^ 2 - 1))) * hs

/-- The divisor `den_mag` is the square root of a quadratic in `cos θ`. -/
theorem denMagnitude_eq (au : AudioUnit ℝ) (self : LoPassKernel ℝ) (freq : ℝ) :
    denMagnitude realLibm au self freq
      = Real.sqrt (4 * self.mB2 * Real.cos (Real.pi * (2 * freq / au.sampleRate)) ^ 2
          + 2 * self.mB1 * (1 + self.mB2) * Real.cos (Real.pi * (2 * freq / au.sampleRate))
          + (1 - self.mB2) ^ 2 + self.mB1 ^ 2) := by
  have hs := Real.sin_sq_add_cos_sq (Real.pi * (2 * freq / au.sampleRate))
  simp only [denMagnitude, realLibm]
  congr 1
  linear_combination ((Real.sin (Real.pi * (2 * freq / au.sampleRate)) ^ 2
      + Real.cos (Real.pi * (2 * freq / au.sampleRate)) ^ 2 - 1)
    + (2 * Real.cos (Real.pi * (2 * freq / au.sampleRate)) + self.mB1) ^ 2
    - 2 * (2 * Real.cos (Real.pi * (2 * freq / au.sampleRate)) ^ 2
        + self.mB1 * Real.cos (Real.pi * (2 * freq / au.sampleRate)) + self.mB2 - 1)) * hs

/-- For the computed coefficients the divisor `den_mag` is above zero at every
query frequency: the denominator polynomial has no root on the unit circle. -/
theorem denMagnitude_pos (au : AudioUnit ℝ) (self : LoPassKernel ℝ) (f resDb freq : ℝ)
    (hf0 : 0 < f) (hf1 : f < 1) :
    0 < denMagnitude realLibm au (CalculateLopassParams realLibm self f resDb) freq := by
  have ht := CalculateLopassParams_triangle self f resDb hf0 hf1
  rw [denMagnitude_eq_abs]
  apply lt_of_le_of_ne (Complex.abs.nonneg _)
  intro h
  have hz := (map_eq_zero Complex.abs).mp h.symm
  have hlt := abs_lt_one_of_root _ _ ht.1 ht.2 _ hz
  rw [abs_unitCirclePoint] at hlt
  exact lt_irrefl _ hlt

/-- C11: passband unity gain.  For a normalised cutoff in `(0, 0.99]` and every
resonance (so at 0 dB and throughout `[-20, 20]` dB), at every sample rate, the
coefficients of `CalculateLopassParams` give `GetFrequencyResponse(0) = 1`:
`(a0 + a1 + a2) / (1 + b1 + b2) = 1` with `1 + b1 + b2 > 0`; so the response at
frequency zero is within `1.0 ± 0.05`. -/
theorem GetFrequencyResponse_zero (au : AudioUnit ℝ) (self : LoPassKernel ℝ) (f resDb : ℝ)
    (hf0 : 0 < f) (hf1 : f ≤ 0.99) :
    (GetFrequencyResponse realLibm au (CalculateLopassParams realLibm self f resDb) 0).1 = 1
      ∧ ((CalculateLopassParams realLibm self f resDb).mA0
          + (CalculateLopassParams realLibm self f resDb).mA1
          + (CalculateLopassParams realLibm self f resDb).mA2)
        / (1 + (CalculateLopassParams realLibm self f resDb).mB1
          + (CalculateLopassParams realLibm self f resDb).mB2) = 1
      ∧ 0 < 1 + (CalculateLopassParams realLibm self f resDb).mB1
          + (CalculateLopassParams realLibm self f resDb).mB2
      ∧ |(GetFrequencyResponse realLibm au (CalculateLopassParams realLibm self f resDb) 0).1
          - 1| ≤ 0.05 := by
  have hlt : f < 1 := lt_of_le_of_lt hf1 (by norm_num)
  obtain ⟨h1, h2, h0⟩ := CalculateLopassParams_numerator self f resDb
  have hpos := CalculateLopassParams_dc_pos self f resDb hf0 hlt
  have hcos : Real.cos (Real.pi * (2 * 0 / au.sampleRate)) = 1 := by simp
  have hnum : numMagnitude realLibm au (CalculateLopassParams realLibm self f resDb) 0
      = 1 + (CalculateLopassParams realLibm self f resDb).mB1
        + (CalculateLopassParams realLibm self f resDb).mB2 := by
    rw [numMagnitude_eq au _ 0 h1 h2, hcos, h0]
    rw [abs_of_pos (by linarith)]
    ring
  have hden : denMagnitude realLibm au (CalculateLopassParams realLibm self f resDb) 0
      = 1 + (CalculateLopassParams realLibm self f resDb).mB1
        + (CalculateLopassParams realLibm self f resDb).mB2 := by
    rw [denMagnitude_eq, hcos, ← Real.sqrt_sq hpos.le]
    congr 1
    ring
  have hresp : (GetFrequencyResponse realLibm au
      (CalculateLopassParams realLibm self f resDb) 0).1 = 1 := by
    rw [GetFrequencyResponse_eq]
    simp only [hnum, hden]
    exact div_self hpos.ne'
  refine ⟨hresp, ?_, hpos, ?_⟩
  · rw [div_eq_one_iff_eq hpos.ne', h1, h2]
    linarith
  · rw [hresp]
    norm_num

/-- The witness of `GetFrequencyResponse_zero`: normalised cutoff `1/2` and
resonance `0` dB at sample rate 44100. -/
theorem GetFrequencyResponse_zero_witness :
    (0 : ℝ) < 1 / 2 ∧ (1 / 2 : ℝ) ≤ 0.99
      ∧ (GetFrequencyResponse realLibm ⟨44100, 1000, 0⟩
          (CalculateLopassParams realLibm ⟨0, 0, 0, 0, 0, 0, 0, 0, 0, -1, -1⟩ (1 / 2) 0) 0).1
        = 1 :=
  ⟨by norm_num, by norm_num,
    (GetFrequencyResponse_zero ⟨44100, 1000, 0⟩ ⟨0, 0, 0, 0, 0, 0, 0, 0, 0, -1, -1⟩ (1 / 2) 0
      (by norm_num) (by norm_num)).1⟩

/-- C13: under the valid preconditions no division of the kernel divides by
zero.  For a normalised cutoff in `(0, 0.99]` and every resonance (so throughout
`[-20, 20]` dB) the divisor `1 + k` of `CalculateLopassParams` is above zero, and
for the coefficients it produces the divisor `den_mag` of `GetFrequencyResponse`
is above zero at every real query frequency and every sample rate. -/
theorem divisors_pos (au : AudioUnit ℝ) (self : LoPassKernel ℝ) (f resDb freq : ℝ)
    (hf0 : 0 < f) (hf1 : f ≤ 0.99) :
    0 < calcDivisor realLibm f resDb
      ∧ (CalculateLopassParams realLibm self f resDb).mB2
        = 2 * (0.5 * (1 - (calcDivisor realLibm f resDb - 1)) / calcDivisor realLibm f resDb)
      ∧ 0 < denMagnitude realLibm au (CalculateLopassParams realLibm self f resDb) freq
      ∧ (GetFrequencyResponse realLibm au (CalculateLopassParams realLibm self f resDb) freq).1
        = numMagnitude realLibm au (CalculateLopassParams realLibm self f resDb) freq
          / denMagnitude realLibm au (CalculateLopassParams realLibm self f resDb) freq := by
  have hlt : f < 1 := lt_of_le_of_lt hf1 (by norm_num)
  have hk := specK_pos f resDb hf0 hlt
  have hdiv : calcDivisor realLibm f resDb
      = 1 + specK realLibm f (resonanceLinear realLibm resDb) := rfl
  refine ⟨by rw [hdiv]; linarith, ?_, denMagnitude_pos au self f resDb freq hf0 hlt, rfl⟩
  rw [hdiv, add_sub_cancel_left]
  rfl

/-- The witness of `divisors_pos`: normalised cutoff `1/2`, resonance `0` dB
and a query frequency above the audible range, at sample rate 44100. -/
theorem divisors_pos_witness :
    (0 : ℝ) < 1 / 2 ∧ (1 / 2 : ℝ) ≤ 0.99
      ∧ 0 < denMagnitude realLibm ⟨44100, 1000, 0⟩
          (CalculateLopassParams realLibm ⟨0, 0, 0, 0, 0, 0, 0, 0, 0, -1, -1⟩ (1 / 2) 0) 96000 :=
  ⟨by norm_num, by norm_num,
    (divisors_pos ⟨44100, 1000, 0⟩ ⟨0, 0, 0, 0, 0, 0, 0, 0, 0, -1, -1⟩ (1 / 2) 0 96000
      (by norm_num) (by norm_num)).2.2.1⟩

/-- C14: the resonance is the gain at the cutoff frequency.  For a sample rate
above zero, a normalised cutoff `f` in `(0, 0.99]` and every resonance `resDb`,
the coefficients of `CalculateLopassParams(f, resDb)` give
`GetFrequencyResponse(f*sr/2) = 10^(resDb/20)`: `1` at 0 dB, `10` at +20 dB and
`0.1` at -20 dB. -/
theorem GetFrequencyResponse_cutoff (au : AudioUnit ℝ) (self : LoPassKernel ℝ) (f resDb : ℝ)
    (hsr : 0 < au.sampleRate) (hf0 : 0 < f) (hf1 : f ≤ 0.99) :
    (GetFrequencyResponse realLibm au (CalculateLopassParams realLibm self f resDb)
        (f * au.sampleRate / 2)).1 = (10 : ℝ) ^ (resDb / 20)
      ∧ (10 : ℝ) ^ ((0 : ℝ) / 20) = 1
      ∧ (10 : ℝ) ^ ((20 : ℝ) / 20) = 10
      ∧ (10 : ℝ) ^ ((-20 : ℝ) / 20) = 0.1 := by
  have hlt : f < 1 := lt_of_le_of_lt hf1 (by norm_num)
  have hθ : 2 * (f * au.sampleRate / 2) / au.sampleRate = f := by
    field_simp
  obtain ⟨h1, h2, h0⟩ := CalculateLopassParams_numerator self f resDb
  have hpos := CalculateLopassParams_dc_pos self f resDb hf0 hlt
  have hk := specK_pos f resDb hf0 hlt
  have hB2 := CalculateLopassParams_mB2 self f resDb hk
  have hB1 := CalculateLopassParams_mB1 self f resDb
  have hs : 0 < Real.sin (Real.pi * f) :=
    Real.sin_pos_of_pos_of_lt_pi (mul_pos Real.pi_pos hf0) (by nlinarith [Real.pi_pos])
  have hsq := Real.sin_sq_add_cos_sq (Real.pi * f)
  have hr : (0 : ℝ) < (10 : ℝ) ^ (0.05 * -resDb) := Real.rpow_pos_of_pos (by norm_num) _
  have hkdef : specK realLibm f (resonanceLinear realLibm resDb)
      = 0.5 * (10 : ℝ) ^ (0.05 * -resDb) * Real.sin (Real.pi * f) := rfl
  have hgain : (10 : ℝ) ^ (resDb / 20) = ((10 : ℝ) ^ (0.05 * -resDb))⁻¹ := by
    rw [← Real.rpow_neg (by norm_num)]
    congr 1
    ring
  have hb2lt : (CalculateLopassParams realLibm self f resDb).mB2 < 1 :=
    (abs_lt.mp (CalculateLopassParams_triangle self f resDb hf0 hlt).1).2
  have hnum : numMagnitude realLibm au (CalculateLopassParams realLibm self f resDb)
      (f * au.sampleRate / 2)
      = (1 + (CalculateLopassParams realLibm self f resDb).mB2)
        * Real.sin (Real.pi * f) ^ 2 / 2 := by
    rw [numMagnitude_eq au _ _ h1 h2, hθ, h0]
    have e : 2 * ((1 + (CalculateLopassParams realLibm self f resDb).mB1
        + (CalculateLopassParams realLibm self f resDb).mB2) / 4) * (1 + Real.cos (Real.pi * f))
        = (1 + (CalculateLopassParams realLibm self f resDb).mB2)
          * Real.sin (Real.pi * f) ^ 2 / 2 := by
      rw [hB1]
      linear_combination
        (-((1 + (CalculateLopassParams realLibm self f resDb).mB2) / 2)) * hsq
    rw [e, abs_of_nonneg]
    have : 0 < 1 + (CalculateLopassParams realLibm self f resDb).mB2 := by
      have := (abs_lt.mp (CalculateLopassParams_triangle self f resDb hf0 hlt).1).1
      linarith
    positivity
  have hden : denMagnitude realLibm au (CalculateLopassParams realLibm self f resDb)
      (f * au.sampleRate / 2)
      = (1 - (CalculateLopassParams realLibm self f resDb).mB2) * Real.sin (Real.pi * f) := by
    have hnn : 0 ≤ (1 - (CalculateLopassParams realLibm self f resDb).mB2)
        * Real.sin (Real.pi * f) := mul_nonneg (by linarith) hs.le
    rw [denMagnitude_eq, hθ, ← Real.sqrt_sq hnn]
    congr 1
    rw [hB1]
    linear_combination (-(1 - (CalculateLopassParams realLibm self f resDb).mB2) ^ 2) * hsq
  refine ⟨?_, by norm_num, by norm_num, ?_⟩
  · rw [GetFrequencyResponse_eq]
    simp only [hnum, hden]
    rw [hgain, hB2, hkdef]
    have hs' := hs.ne'
    have hr' := hr.ne'
    have hk' : 1 + 0.5 * (10 : ℝ) ^ (0.05 * -resDb) * Real.sin (Real.pi * f) ≠ 0 := by
      rw [← hkdef]; linarith
    field_simp
    ring
  · rw [show ((-20 : ℝ) / 20) = -1 by norm_num, Real.rpow_neg_one]
    norm_num

/-- The witness of `GetFrequencyResponse_cutoff`: sample rate 44100, normalised
cutoff `1/2` and resonance `+20` dB. -/
theorem GetFrequencyResponse_cutoff_witness :
    (0 : ℝ) < (⟨44100, 1000, 0⟩ : AudioUnit ℝ).sampleRate ∧ (0 : ℝ) < 1 / 2
      ∧ (1 / 2 : ℝ) ≤ 0.99
      ∧ (GetFrequencyResponse realLibm ⟨44100, 1000, 0⟩
          (CalculateLopassParams realLibm ⟨0, 0, 0, 0, 0, 0, 0, 0, 0, -1, -1⟩ (1 / 2) 20)
          (1 / 2 * (⟨44100, 1000, 0⟩ : AudioUnit ℝ).sampleRate / 2)).1
        = (10 : ℝ) ^ ((20 : ℝ) / 20) := by
  have hsr : (0 : ℝ) < (⟨44100, 1000, 0⟩ : AudioUnit ℝ).sampleRate := by norm_num
  exact ⟨hsr, by norm_num, by norm_num,
    (GetFrequencyResponse_cutoff ⟨44100, 1000, 0⟩ ⟨0, 0, 0, 0, 0, 0, 0, 0, 0, -1, -1⟩ (1 / 2) 20
      hsr (by norm_num) (by norm_num)).1⟩

/-- With `b1 = -(1 + b2)*xc` and `|b2| < 1`, the quotient of `(1 + x)^2` by the
quadratic under `den_mag` grows with `x` on `[-1, xc]`. -/
theorem quadratic_ratio_lt (b1 b2 xc x1 x2 : ℝ) (hb2 : |b2| < 1)
    (hb1 : b1 = -((1 + b2) * xc)) (hx2 : -1 ≤ x2) (h21 : x2 < x1) (h1c : x1 ≤ xc) :
    (1 + x2) ^ 2 * (4 * b2 * x1 ^ 2 + 2 * b1 * (1 + b2) * x1 + (1 - b2) ^ 2 + b1 ^ 2)
      < (1 + x1) ^ 2 * (4 * b2 * x2 ^ 2 + 2 * b1 * (1 + b2) * x2 + (1 - b2) ^ 2 + b1 ^ 2) := by
  obtain ⟨hb2l, hb2u⟩ := abs_lt.mp hb2
  have hu2 : 0 ≤ 1 + x2 := by linarith
  have hu1 : 0 < 1 + x1 := by linarith
  have huc : 0 < 1 + xc := by linarith
  have hone : 0 < (1 - b2) ^ 2 := by
    have : 0 < 1 - b2 := by linarith
    positivity
  have hP : 0 < (1 + b2 - b1) ^ 2 := by
    have : 0 < 1 + b2 - b1 := by
      rw [hb1]
      have h3 : 0 < (1 + b2) * (1 + xc) := mul_pos (by linarith) huc
      linarith
    positivity
  have hbr : 0 < (2 * b1 * (1 + b2) - 8 * b2) * ((1 + x1) * (1 + x2))
      + (1 + b2 - b1) ^ 2 * ((1 + x1) + (1 + x2)) := by
    rcases le_or_lt 0 (2 * b1 * (1 + b2) - 8 * b2) with hA | hA
    · have t1 : 0 ≤ (2 * b1 * (1 + b2) - 8 * b2) * ((1 + x1) * (1 + x2)) :=
        mul_nonneg hA (mul_nonneg hu1.le hu2)
      have t2 : 0 < (1 + b2 - b1) ^ 2 * ((1 + x1) + (1 + x2)) :=
        mul_pos hP (by linarith)
      linarith
    · have hsplit : (2 * b1 * (1 + b2) - 8 * b2) * ((1 + x1) * (1 + x2))
          + (1 + b2 - b1) ^ 2 * ((1 + x1) + (1 + x2))
          = ((1 + x1) + (1 + x2)) * ((1 - b2) ^ 2 * (1 + xc))
            + (-(2 * b1 * (1 + b2) - 8 * b2))
              * (((1 + x2) * (xc - x1) + (1 + x1) * (xc - x2)) / 2) := by
        rw [hb1]
        ring
      rw [hsplit]
      have t1 : 0 < ((1 + x1) + (1 + x2)) * ((1 - b2) ^ 2 * (1 + xc)) :=
        mul_pos (by linarith) (mul_pos hone huc)
      have t2 : 0 ≤ (-(2 * b1 * (1 + b2) - 8 * b2))
          * (((1 + x2) * (xc - x1) + (1 + x1) * (xc - x2)) / 2) := by
        apply mul_nonneg (by linarith)
        have q1 : 0 ≤ (1 + x2) * (xc - x1) := mul_nonneg hu2 (by linarith)
        have q2 : 0 ≤ (1 + x1) * (xc - x2) := mul_nonneg hu1.le (by linarith)
        linarith
      linarith
  have hdiff : (1 + x1) ^ 2
        * (4 * b2 * x2 ^ 2 + 2 * b1 * (1 + b2) * x2 + (1 - b2) ^ 2 + b1 ^ 2)
      - (1 + x2) ^ 2
        * (4 * b2 * x1 ^ 2 + 2 * b1 * (1 + b2) * x1 + (1 - b2) ^ 2 + b1 ^ 2)
      = (x1 - x2) * ((2 * b1 * (1 + b2) - 8 * b2) * ((1 + x1) * (1 + x2))
          + (1 + b2 - b1) ^ 2 * ((1 + x1) + (1 + x2))) := by
    ring
  have hprod := mul_pos (sub_pos.mpr h21) hbr
  linarith

/-- C12: the magnitude response falls strictly above the cutoff.  For a sample
rate `sr` above zero, a normalised cutoff `f` in `(0, 0.99]` and every resonance
(so at 0 dB), with the coefficients of `CalculateLopassParams`: for query
frequencies `fa < fb` with `f*sr/2 ≤ fa` and `fb ≤ sr/2`,
`GetFrequencyResponse(fb) < GetFrequencyResponse(fa)`. -/
theorem GetFrequencyResponse_strictAnti (au : AudioUnit ℝ) (self : LoPassKernel ℝ)
    (f resDb fa fb : ℝ) (hsr : 0 < au.sampleRate) (hf0 : 0 < f) (hf1 : f ≤ 0.99)
    (hab : fa < fb) (hc : f * au.sampleRate / 2 ≤ fa) (hn : fb ≤ au.sampleRate / 2) :
    (GetFrequencyResponse realLibm au (CalculateLopassParams realLibm self f resDb) fb).1
      < (GetFrequencyResponse realLibm au (CalculateLopassParams realLibm self f resDb) fa).1 := by
  have hlt : f < 1 := lt_of_le_of_lt hf1 (by norm_num)
  obtain ⟨h1, h2, h0⟩ := CalculateLopassParams_numerator self f resDb
  have hpos := CalculateLopassParams_dc_pos self f resDb hf0 hlt
  have ht := CalculateLopassParams_triangle self f resDb hf0 hlt
  have hB1 := CalculateLopassParams_mB1 self f resDb
  have ha0 : 0 < (CalculateLopassParams realLibm self f resDb).mA0 := by
    rw [h0]; linarith
  have hta : f ≤ 2 * fa / au.sampleRate := by
    rw [le_div_iff₀ hsr]; linarith
  have htab : 2 * fa / au.sampleRate < 2 * fb / au.sampleRate :=
    div_lt_div_of_pos_right (by linarith) hsr
  have htb : 2 * fb / au.sampleRate ≤ 1 := by
    rw [div_le_one hsr]; linarith
  have hxab : Real.cos (Real.pi * (2 * fb / au.sampleRate))
      < Real.cos (Real.pi * (2 * fa / au.sampleRate)) :=
    Real.cos_lt_cos_of_nonneg_of_le_pi
      (mul_nonneg Real.pi_pos.le (hf0.le.trans hta))
      (by nlinarith [Real.pi_pos])
      (mul_lt_mul_of_pos_left htab Real.pi_pos)
  have hxac : Real.cos (Real.pi * (2 * fa / au.sampleRate)) ≤ Real.cos (Real.pi * f) :=
    Real.cos_le_cos_of_nonneg_of_le_pi (mul_nonneg Real.pi_pos.le hf0.le)
      (by nlinarith [Real.pi_pos])
      (mul_le_mul_of_nonneg_left hta Real.pi_pos.le)
  have hxb := Real.neg_one_le_cos (Real.pi * (2 * fb / au.sampleRate))
  have hratio := quadratic_ratio_lt _ _ _ _ _ ht.1 hB1 hxb hxab hxac
  have hdena := denMagnitude_pos au self f resDb fa hf0 hlt
  have hdenb := denMagnitude_pos au self f resDb fb hf0 hlt
  have hQa := hdena
  have hQb := hdenb
  rw [denMagnitude_eq, Real.sqrt_pos] at hQa hQb
  have hnuma : numMagnitude realLibm au (CalculateLopassParams realLibm self f resDb) fa
      = 2 * (CalculateLopassParams realLibm self f resDb).mA0
        * (1 + Real.cos (Real.pi * (2 * fa / au.sampleRate))) := by
    rw [numMagnitude_eq au _ fa h1 h2, abs_of_nonneg]
    exact mul_nonneg (by linarith) (by linarith)
  have hnumb : numMagnitude realLibm au (CalculateLopassParams realLibm self f resDb) fb
      = 2 * (CalculateLopassParams realLibm self f resDb).mA0
        * (1 + Real.cos (Real.pi * (2 * fb / au.sampleRate))) := by
    rw [numMagnitude_eq au _ fb h1 h2, abs_of_nonneg]
    exact mul_nonneg (by linarith) (by linarith)
  have hsqa : denMagnitude realLibm au (CalculateLopassParams realLibm self f resDb) fa ^ 2
      = 4 * (CalculateLopassParams realLibm self f resDb).mB2
          * Real.cos (Real.pi * (2 * fa / au.sampleRate)) ^ 2
        + 2 * (CalculateLopassParams realLibm self f resDb).mB1
          * (1 + (CalculateLopassParams realLibm self f resDb).mB2)
          * Real.cos (Real.pi * (2 * fa / au.sampleRate))
        + (1 - (CalculateLopassParams realLibm self f resDb).mB2) ^ 2
        + (CalculateLopassParams realLibm self f resDb).mB1 ^ 2 := by
    rw [denMagnitude_eq, Real.sq_sqrt hQa.le]
  have hsqb : denMagnitude realLibm au (CalculateLopassParams realLibm self f resDb) fb ^ 2
      = 4 * (CalculateLopassParams realLibm self f resDb).mB2
          * Real.cos (Real.pi * (2 * fb / au.sampleRate)) ^ 2
        + 2 * (CalculateLopassParams realLibm self f resDb).mB1
          * (1 + (CalculateLopassParams realLibm self f resDb).mB2)
          * Real.cos (Real.pi * (2 * fb / au.sampleRate))
        + (1 - (CalculateLopassParams realLibm self f resDb).mB2) ^ 2
        + (CalculateLopassParams realLibm self f resDb).mB1 ^ 2 := by
    rw [denMagnitude_eq, Real.sq_sqrt hQb.le]
  rw [GetFrequencyResponse_eq, GetFrequencyResponse_eq]
  simp only
  rw [div_lt_div_iff₀ hdenb hdena]
  have hrhs : 0 ≤ numMagnitude realLibm au (CalculateLopassParams realLibm self f resDb) fa
      * denMagnitude realLibm au (CalculateLopassParams realLibm self f resDb) fb := by
    rw [hnuma]
    exact mul_nonneg (mul_nonneg (by linarith) (by linarith)) hdenb.le
  apply lt_of_pow_lt_pow_left₀ 2 hrhs
  rw [mul_pow, mul_pow, hsqa, hsqb, hnuma, hnumb]
  have hscale : 0 < 4 * (CalculateLopassParams realLibm self f resDb).mA0 ^ 2 := by positivity
  have hmul := mul_lt_mul_of_pos_left hratio hscale
  linarith

/-- The witness of `GetFrequencyResponse_strictAnti`: sample rate 44100,
normalised cutoff `1/2` (cutoff 11025 Hz) and resonance `0` dB, at the query
frequencies 12000 Hz and 20000 Hz. -/
theorem GetFrequencyResponse_strictAnti_witness :
    (0 : ℝ) < (⟨44100, 1000, 0⟩ : AudioUnit ℝ).sampleRate ∧ (0 : ℝ) < 1 / 2
      ∧ (1 / 2 : ℝ) ≤ 0.99 ∧ (12000 : ℝ) < 20000
      ∧ (1 / 2 : ℝ) * (⟨44100, 1000, 0⟩ : AudioUnit ℝ).sampleRate / 2 ≤ 12000
      ∧ (20000 : ℝ) ≤ (⟨44100, 1000, 0⟩ : AudioUnit ℝ).sampleRate / 2
      ∧ (GetFrequencyResponse realLibm ⟨44100, 1000, 0⟩
          (CalculateLopassParams realLibm ⟨0, 0, 0, 0, 0, 0, 0, 0, 0, -1, -1⟩ (1 / 2) 0) 20000).1
        < (GetFrequencyResponse realLibm ⟨44100, 1000, 0⟩
          (CalculateLopassParams realLibm ⟨0, 0, 0, 0, 0, 0, 0, 0, 0, -1, -1⟩ (1 / 2) 0) 12000).1 := by
  have hsr : (0 : ℝ) < (⟨44100, 1000, 0⟩ : AudioUnit ℝ).sampleRate := by norm_num
  have hc : (1 / 2 : ℝ) * (⟨44100, 1000, 0⟩ : AudioUnit ℝ).sampleRate / 2 ≤ 12000 := by norm_num
  have hn : (20000 : ℝ) ≤ (⟨44100, 1000, 0⟩ : AudioUnit ℝ).sampleRate / 2 := by norm_num
  exact ⟨hsr, by norm_num, by norm_num, by norm_num, hc, hn,
    GetFrequencyResponse_strictAnti ⟨44100, 1000, 0⟩ ⟨0, 0, 0, 0, 0, 0, 0, 0, 0, -1, -1⟩ (1 / 2) 0
      12000 20000 hsr (by norm_num) (by norm_num) (by norm_num) hc hn⟩

end Gain

/-! ## Block boundaries -/

section Blocks

variable {K : Type} [LinearOrderedField K]

/-- C15: block boundaries leave no trace.  For every kernel, every two source
blocks `xs` and `ys` and fixed host values, `Process` on `xs` followed by
`Process` on `ys` writes the samples, and leaves the kernel (registers,
coefficients and cached pair), that a single `Process` on `xs ++ ys` does. -/
theorem Process_append (L : Libm K) (au : AudioUnit K) (self : LoPassKernel K)
    (xs ys : List K) :
    (Process L au self xs).1 ++ (Process L au (Process L au self xs).2 ys).1
        = (Process L au self (xs ++ ys)).1
      ∧ (Process L au (Process L au self xs).2 ys).2 = (Process L au self (xs ++ ys)).2 := by
  have hlast : lastApplied (Process L au self xs).2 = boundedParameters au := by
    simp only [Process]
    rw [(sampleLoop_frame _ _).2, updateCoefficients_lastApplied]
  have hstay : updateCoefficients L (Process L au self xs).2 (boundedParameters au).1
      (boundedParameters au).2 = (Process L au self xs).2 :=
    updateCoefficients_of_eq L _ _ _ hlast.symm
  have hsecond : Process L au (Process L au self xs).2 ys
      = sampleLoop ys (Process L au self xs).2 [] := by
    conv_lhs => rw [Process]
    simp only [hstay]
  have hwhole : Process L au self (xs ++ ys)
      = ((Process L au self xs).1 ++ (sampleLoop ys (Process L au self xs).2 []).1,
          (sampleLoop ys (Process L au self xs).2 []).2) := by
    simp only [Process]
    rw [sampleLoop_append]
  rw [hsecond, hwhole]
  exact ⟨rfl, rfl⟩

end Blocks

end LoPass
